import Mathlib

/-!
Verification development for the `manifestdb` repository.

The repository consists of two Python programs:

* `src/mpp/mpp.py` — the OSBuild Manifest-Pre-Processor: a JSON manifest
  model (`Manifest`), three annotation-driven transformation passes
  (`MppDepsolve`, `MppPipelineBase`, `MppPipelineImport`) and a fixed-point
  driver (`Mpp.run`).
* `src/mdb/mdb.py` — the manifest database: a content-addressed object
  store (`open_tmpfile`, `MdbPrefetch`, `MdbPreprocess`).

This file gives a shallow embedding of those programs.  JSON documents are
modelled by the inductive type `Json`; Python dictionaries become ordered
association lists (Python dicts preserve insertion order; insertion of an
existing key keeps its position, which the list operations below mirror).
Stateful Python code that mutates the manifest tree through references is
rendered as explicit tree updates at paths; exceptions become `Except`.
External collaborators (the dnf resolver, the filesystem, the network,
`hashlib`) are modelled as parameters, following the interface boundaries
of the code.
-/

namespace ManifestDb

/-- JSON values, as produced by Python's `json.load`.  Numbers in the
manifests handled by the repository are integers, so `num` carries `Int`. -/
inductive Json where
  | null
  | bool (b : Bool)
  | num (n : Int)
  | str (s : String)
  | arr (elems : List Json)
  | obj (entries : List (String × Json))
  deriving Repr

mutual

/-- Decidable equality on `Json` (the nested inductive is not handled by
`deriving DecidableEq`). -/
def Json.decEq : (a b : Json) → Decidable (a = b)
  | .null, .null => .isTrue rfl
  | .bool a, .bool b =>
    if h : a = b then .isTrue (congrArg Json.bool h)
    else .isFalse (fun he => h (Json.bool.inj he))
  | .num a, .num b =>
    if h : a = b then .isTrue (congrArg Json.num h)
    else .isFalse (fun he => h (Json.num.inj he))
  | .str a, .str b =>
    if h : a = b then .isTrue (congrArg Json.str h)
    else .isFalse (fun he => h (Json.str.inj he))
  | .arr as, .arr bs =>
    match Json.decEqList as bs with
    | .isTrue h => .isTrue (congrArg Json.arr h)
    | .isFalse h => .isFalse (fun he => h (Json.arr.inj he))
  | .obj as, .obj bs =>
    match Json.decEqEntries as bs with
    | .isTrue h => .isTrue (congrArg Json.obj h)
    | .isFalse h => .isFalse (fun he => h (Json.obj.inj he))
  | .null, .bool _ => .isFalse (fun h => Json.noConfusion h)
  | .null, .num _ => .isFalse (fun h => Json.noConfusion h)
  | .null, .str _ => .isFalse (fun h => Json.noConfusion h)
  | .null, .arr _ => .isFalse (fun h => Json.noConfusion h)
  | .null, .obj _ => .isFalse (fun h => Json.noConfusion h)
  | .bool _, .null => .isFalse (fun h => Json.noConfusion h)
  | .bool _, .num _ => .isFalse (fun h => Json.noConfusion h)
  | .bool _, .str _ => .isFalse (fun h => Json.noConfusion h)
  | .bool _, .arr _ => .isFalse (fun h => Json.noConfusion h)
  | .bool _, .obj _ => .isFalse (fun h => Json.noConfusion h)
  | .num _, .null => .isFalse (fun h => Json.noConfusion h)
  | .num _, .bool _ => .isFalse (fun h => Json.noConfusion h)
  | .num _, .str _ => .isFalse (fun h => Json.noConfusion h)
  | .num _, .arr _ => .isFalse (fun h => Json.noConfusion h)
  | .num _, .obj _ => .isFalse (fun h => Json.noConfusion h)
  | .str _, .null => .isFalse (fun h => Json.noConfusion h)
  | .str _, .bool _ => .isFalse (fun h => Json.noConfusion h)
  | .str _, .num _ => .isFalse (fun h => Json.noConfusion h)
  | .str _, .arr _ => .isFalse (fun h => Json.noConfusion h)
  | .str _, .obj _ => .isFalse (fun h => Json.noConfusion h)
  | .arr _, .null => .isFalse (fun h => Json.noConfusion h)
  | .arr _, .bool _ => .isFalse (fun h => Json.noConfusion h)
  | .arr _, .num _ => .isFalse (fun h => Json.noConfusion h)
  | .arr _, .str _ => .isFalse (fun h => Json.noConfusion h)
  | .arr _, .obj _ => .isFalse (fun h => Json.noConfusion h)
  | .obj _, .null => .isFalse (fun h => Json.noConfusion h)
  | .obj _, .bool _ => .isFalse (fun h => Json.noConfusion h)
  | .obj _, .num _ => .isFalse (fun h => Json.noConfusion h)
  | .obj _, .str _ => .isFalse (fun h => Json.noConfusion h)
  | .obj _, .arr _ => .isFalse (fun h => Json.noConfusion h)

/-- Decidable equality on lists of `Json`. -/
def Json.decEqList : (as bs : List Json) → Decidable (as = bs)
  | [], [] => .isTrue rfl
  | [], _ :: _ => .isFalse (fun h => List.noConfusion h)
  | _ :: _, [] => .isFalse (fun h => List.noConfusion h)
  | a :: as, b :: bs =>
    match Json.decEq a b with
    | .isTrue h1 =>
      match Json.decEqList as bs with
      | .isTrue h2 => .isTrue (by rw [h1, h2])
      | .isFalse h2 => .isFalse (fun he => h2 (List.cons.inj he).2
      )
    | .isFalse h1 => .isFalse (fun he => h1 (List.cons.inj he).1)

/-- Decidable equality on dictionary entry lists. -/
def Json.decEqEntries : (as bs : List (String × Json)) → Decidable (as = bs)
  | [], [] => .isTrue rfl
  | [], _ :: _ => .isFalse (fun h => List.noConfusion h)
  | _ :: _, [] => .isFalse (fun h => List.noConfusion h)
  | (k, v) :: as, (k', v') :: bs =>
    match String.decEq k k' with
    | .isTrue hk =>
      match Json.decEq v v' with
      | .isTrue hv =>
        match Json.decEqEntries as bs with
        | .isTrue h2 => .isTrue (by rw [hk, hv, h2])
        | .isFalse h2 => .isFalse (fun he => h2 (List.cons.inj he).2)
      | .isFalse hv =>
        .isFalse (fun he => hv (congrArg Prod.snd (List.cons.inj he).1))
    | .isFalse hk =>
      .isFalse (fun he => hk (congrArg Prod.fst (List.cons.inj he).1))

end

instance : DecidableEq Json := Json.decEq

namespace Json

/-- Python truthiness (`if itr:`): `None`, `False`, `0`, `""`, `[]`, `{}`
are falsy, everything else is truthy. -/
def truthy : Json → Bool
  | .null => false
  | .bool b => b
  | .num n => n != 0
  | .str s => s != ""
  | .arr es => !es.isEmpty
  | .obj l => !l.isEmpty

/-- Truthiness of an optional value (`dct.get(k)` returns `None` when the
key is absent, and `None` is falsy). -/
def truthyOpt : Option Json → Bool
  | none => false
  | some j => truthy j

end Json

/-- `dct[key]` / `dct.get(key)` lookup on an ordered association list. -/
def dget : List (String × Json) → String → Option Json
  | [], _ => none
  | (k', v) :: t, k => if k' = k then some v else dget t k

/-- `key in dct`. -/
def dhaskey (l : List (String × Json)) (k : String) : Bool :=
  (dget l k).isSome

/-- `dct[key] = v`: replace the value of an existing key in place (Python
dicts keep the key's position), otherwise append the new entry. -/
def dset : List (String × Json) → String → Json → List (String × Json)
  | [], k, v => [(k, v)]
  | (k', v') :: t, k, v => if k' = k then (k, v) :: t else (k', v') :: dset t k v

/-- `del dct[key]` (keys are unique in dicts decoded from JSON, so deleting
the first occurrence is exact). -/
def ddel : List (String × Json) → String → List (String × Json)
  | [], _ => []
  | (k', v') :: t, k => if k' = k then t else (k', v') :: ddel t k

/-- `dct.update(other)`: set every entry of `other` in order. -/
def dupdate (l other : List (String × Json)) : List (String × Json) :=
  other.foldl (fun acc kv => dset acc kv.1 kv.2) l

/-- Lexicographic comparison of character lists by code point (the order
Python's string comparison and `sort_keys` use). -/
def charsLe : List Char → List Char → Bool
  | [], _ => true
  | _ :: _, [] => false
  | a :: as, b :: bs =>
    if a.val < b.val then true
    else if b.val < a.val then false
    else charsLe as bs

/-- Lexicographic string comparison by code point. -/
def strLe (a b : String) : Bool := charsLe a.toList b.toList

/-- Insert a dictionary entry into a key-sorted entry list (used to build
the canonical form that models Python's order-insensitive `dict` equality). -/
def insEntry (e : String × Json) : List (String × Json) → List (String × Json)
  | [] => [e]
  | f :: t => if strLe e.1 f.1 then e :: f :: t else f :: insEntry e t

/-- Sort dictionary entries by key (insertion sort). -/
def sortEntries : List (String × Json) → List (String × Json)
  | [] => []
  | e :: t => insEntry e (sortEntries t)

mutual

/-- Canonical form of a JSON value: object keys sorted recursively.  Python's
`==` on values decoded from JSON (unordered dict comparison, ordered list
comparison) coincides with equality of canonical forms; the only divergence
is Python's numeric conflation (`True == 1`), which no comparison performed
by this code base exercises (all its comparisons are against strings or
empty containers). -/
def canon : Json → Json
  | .null => .null
  | .bool b => .bool b
  | .num n => .num n
  | .str s => .str s
  | .arr es => .arr (canonList es)
  | .obj l => .obj (sortEntries (canonEntries l))

/-- Canonical form of each list element. -/
def canonList : List Json → List Json
  | [] => []
  | j :: t => canon j :: canonList t

/-- Canonical form of each entry value. -/
def canonEntries : List (String × Json) → List (String × Json)
  | [] => []
  | (k, v) :: t => (k, canon v) :: canonEntries t

end

/-- Python `==` on JSON values (see `canon`). -/
def pyEq (a b : Json) : Bool := canon a = canon b

/-- Python substring test on `List Char` (`pat in hay` for strings). -/
def subList (pat : List Char) : List Char → Bool
  | [] => pat.isEmpty
  | c :: t => pat.isPrefixOf (c :: t) || subList pat t

/-- Python `pat in hay` for strings. -/
def strContains (hay pat : String) : Bool := subList pat.toList hay.toList

/-- Python `key in container`: key membership for dicts, element membership
(via `==`) for lists, substring test for strings; a `TypeError` (`none`) for
the remaining types. -/
def jsonContains (container : Json) (k : String) : Option Bool :=
  match container with
  | .obj l => some (dhaskey l k)
  | .arr es => some (es.any (fun e => pyEq e (.str k)))
  | .str s => some (strContains s k)
  | _ => none

/-- A step into a JSON tree: a dictionary key or a list index. -/
inductive PathElem where
  | key (k : String)
  | idx (i : Nat)
  deriving Repr, DecidableEq

/-- A path into a JSON tree.  The Python code mutates subtrees through
references; the embedding renders such mutations as updates at the path at
which the reference was obtained. -/
abbrev Path := List PathElem

/-- Read the value at a path. -/
def getPath : Json → Path → Option Json
  | j, [] => some j
  | .obj l, .key k :: p => (dget l k).bind (fun c => getPath c p)
  | .arr es, .idx i :: p => es[i]?.bind (fun c => getPath c p)
  | _, _ => none

/-- Replace the value at a path (identity when the path does not resolve;
all uses below are at paths previously obtained from the same tree). -/
def setPath : Json → Path → Json → Json
  | _, [], v => v
  | .obj l, .key k :: p, v =>
    match dget l k with
    | some c => .obj (dset l k (setPath c p v))
    | none => .obj l
  | .arr es, .idx i :: p, v =>
    match es[i]? with
    | some c => .arr (es.set i (setPath c p v))
    | none => .arr es
  | j, _, _ => j

/-- Errors raised by the manifest pre-processor.  `typeError`, `keyError`
and `assertError` are Python's `TypeError` / `KeyError` / `AssertionError`;
`ioError` covers a failed `open` or JSON decode of an imported file;
`conflictError` is the `ValueError("Importing conflicting build pipelines")`
of `MppPipelineBase._process_one`; `unknownSourceError` is the
`ValueError("Unknown source type")` of `Manifest.update_sources`. -/
inductive Err where
  | typeError
  | keyError
  | assertError
  | ioError
  | conflictError
  | unknownSourceError
  deriving Repr, DecidableEq

/-- `key.startswith("mpp-")` (mpp.py:45). -/
def startsWithMpp (s : String) : Bool :=
  List.isPrefixOf "mpp-".toList s.toList

/-- `dict_contains_only` (mpp.py:41-50): every key is either `mpp-`-prefixed
(when `allow_mpp`) or in the allowed list. -/
def dict_contains_only (l : List (String × Json)) (allowed : List String)
    (allow_mpp : Bool := true) : Bool :=
  l.all (fun kv => (allow_mpp && startsWithMpp kv.1) || allowed.contains kv.1)

/-- The entries of an object (used to mirror calls that are only reached on
values already known to be objects). -/
def objEntries : Json → List (String × Json)
  | .obj l => l
  | _ => []

/-- `dict_enter` (mpp.py:26-31) on an entry list: insert the default when
the key is absent, return the entries unchanged otherwise. -/
def enterOne (l : List (String × Json)) (k : String) (dflt : Json) :
    List (String × Json) :=
  if dhaskey l k then l else dset l k dflt

/-- `dict_enter` applied through a path walk of `itr = itr[step]`
(mpp.py:126-129): strict indexing - a missing step is a `KeyError`, a
non-dict is a `TypeError`; at the last component, `dict_enter`
(mpp.py:26-31) inserts the default when the key is absent. -/
def enterPath : Json → List String → Json → Except Err Json
  | .obj l, [last], dflt => .ok (.obj (enterOne l last dflt))
  | _, [_], _ => .error .typeError
  | .obj l, step :: next :: rest, dflt =>
    match dget l step with
    | none => .error .keyError
    | some c =>
      match enterPath c (next :: rest) dflt with
      | .ok c' => .ok (.obj (dset l step c'))
      | .error e => .error e
  | _, _ :: _ :: _, _ => .error .typeError
  | _, [], _ => .error .typeError

mutual

/-- The number of nodes of a JSON tree (an executable size measure, used
only to bound the levels walk). -/
def jsize : Json → Nat
  | .null => 1
  | .bool _ => 1
  | .num _ => 1
  | .str _ => 1
  | .arr es => 1 + jsizeL es
  | .obj l => 1 + jsizeE l

/-- Size of a list of JSON trees. -/
def jsizeL : List Json → Nat
  | [] => 0
  | j :: t => jsize j + jsizeL t

/-- Size of a dictionary entry list. -/
def jsizeE : List (String × Json) → Nat
  | [] => 0
  | (_, v) :: t => 1 + jsize v + jsizeE t

end

/-- The body of the `levels` walk, with an explicit recursion bound.  The
walk strictly descends the tree (each step moves to a value found inside
the current node), so any bound at least `jsize` of the node is exact;
`levelsFrom` below supplies one and `levelsFrom_eq` recovers the
unbounded-looking unfolding. -/
def levelsGo : Nat → Path → Json → Except Err (List (Path × Json))
  | 0, _, _ => .error .typeError
  | fuel + 1, pre, j =>
    if Json.truthy j then
      match j with
      | .obj l =>
        (match dget l "pipeline" with
        | none => .ok [(pre, .obj l)]
        | some p =>
          if Json.truthy p then
            match p with
            | .obj pl =>
              (match dget pl "build" with
              | none => .ok [(pre, .obj l)]
              | some b =>
                match levelsGo fuel (pre ++ [.key "pipeline", .key "build"]) b with
                | .ok rest => .ok ((pre, .obj l) :: rest)
                | .error e => .error e)
            | _ => .error .typeError
          else .ok [(pre, .obj l)])
      | _ => .error .typeError
    else .ok []

/-- The `levels` walk of `Manifest.refresh` (mpp.py:134-139): starting at the
root, follow `.get("pipeline")` then `.get("build")` while the node is
truthy, collecting every visited node together with its path.  Calling
`.get` on a truthy non-dict is an `AttributeError` (modelled `typeError`). -/
def levelsFrom (pre : Path) (j : Json) : Except Err (List (Path × Json)) :=
  levelsGo (jsize j) pre j

/-- The five cached links of a `Manifest` (mpp.py:56-62). -/
structure Links where
  pipeline : Json
  stages : Json
  sources : Json
  files : Json
  urls : Json
  deriving Repr, DecidableEq

/-- The link paths (`Manifest._linkinfo`, mpp.py:56-62). -/
def pipelinePath : Path := [.key "pipeline"]

/-- Path of the `stages` link. -/
def stagesPath : Path := [.key "pipeline", .key "stages"]

/-- Path of the `sources` link. -/
def sourcesPath : Path := [.key "sources"]

/-- Path of the `files` link. -/
def filesPath : Path := [.key "sources", .key "org.osbuild.files"]

/-- Path of the `urls` link. -/
def urlsPath : Path := [.key "sources", .key "org.osbuild.files", .key "urls"]

/-- The link values of a (refreshed) manifest tree.  After a successful
`refresh` all five paths are present (`refresh_links_present` below). -/
def linksOf (m : Json) : Links :=
  { pipeline := (getPath m pipelinePath).getD .null
    stages := (getPath m stagesPath).getD .null
    sources := (getPath m sourcesPath).getD .null
    files := (getPath m filesPath).getD .null
    urls := (getPath m urlsPath).getD .null }

/-- `Manifest.refresh` (mpp.py:112-150): assert the root is a dict, create
the five links via `dict_enter` walks (inserting a copy of each default for
absent entries), walk the `levels` chain, then run the
`dict_contains_only` sanity checks.  The code *discards* the boolean
results of those checks (mpp.py:143-150) - no error is ever raised from
them - so they appear here only as discarded bindings; given that the
earlier steps succeeded, none of those calls can itself raise. -/
def refresh (d : Json) : Except Err Json :=
  match d with
  | .obj _ =>
    (match enterPath d ["pipeline"] (.obj []) with
    | .error e => .error e
    | .ok d1 =>
      match enterPath d1 ["pipeline", "stages"] (.arr []) with
      | .error e => .error e
      | .ok d2 =>
        match enterPath d2 ["sources"] (.obj []) with
        | .error e => .error e
        | .ok d3 =>
          match enterPath d3 ["sources", "org.osbuild.files"] (.obj []) with
          | .error e => .error e
          | .ok d4 =>
            match enterPath d4 ["sources", "org.osbuild.files", "urls"] (.obj []) with
            | .error e => .error e
            | .ok d5 =>
              match levelsFrom [] d5 with
              | .error e => .error e
              | .ok lvls =>
                -- sanity tests (mpp.py:141-150): results computed, discarded
                let _ := dict_contains_only (objEntries d5) ["pipeline", "sources"]
                let _ := dict_contains_only
                  (objEntries ((getPath d5 pipelinePath).getD .null)) ["build", "stages"]
                let _ := dict_contains_only
                  (objEntries ((getPath d5 sourcesPath).getD .null)) ["org.osbuild.files"]
                let _ := dict_contains_only
                  (objEntries ((getPath d5 filesPath).getD .null)) ["urls"]
                let _ := lvls.map (fun lv =>
                  (dict_contains_only (objEntries lv.2) ["pipeline", "runner"],
                   dict_contains_only
                     (objEntries ((dget (objEntries lv.2) "pipeline").getD (.obj [])))
                     ["build", "stages"]))
                .ok d5)
  | _ => .error .assertError

/-- `dict_strip` (mpp.py:34-38): delete the entry when present and Python-==
to the given condition value. -/
def dict_strip (l : List (String × Json)) (k : String) (cond : Json) :
    List (String × Json) :=
  match dget l k with
  | some v => if pyEq v cond then ddel l k else l
  | none => l

/-- One step of `Manifest._strip` (mpp.py:79-86): walk `path[:-1]` with
`.get`, breaking out (leaving the tree unchanged) when a step is missing or
falsy; `.get`/`in` on a truthy non-dict is an error; at the end apply
`dict_strip`. -/
def stripStep (j : Json) (path : List String) (dflt : Json) : Except Err Json :=
  match j, path with
  | .obj l, [last] => .ok (.obj (dict_strip l last dflt))
  | j, [_] => if Json.truthy j then .error .typeError else .ok j
  | .obj l, step :: next :: rest =>
    (match dget l step with
    | none => .ok (.obj l)
    | some c =>
      if Json.truthy c then
        match stripStep c (next :: rest) dflt with
        | .ok c' => .ok (.obj (dset l step c'))
        | .error e => .error e
      else .ok (.obj l))
  | j, _ :: _ :: _ => if Json.truthy j then .error .typeError else .ok j
  | j, [] => .ok j

/-- `Manifest._strip` (mpp.py:71-88): on a (deep) copy of the tree, walk the
link-info array in reverse order, dropping each cached entry that equals its
default. -/
def strip (m : Json) : Except Err Json :=
  match stripStep m ["sources", "org.osbuild.files", "urls"] (.obj []) with
  | .error e => .error e
  | .ok m1 =>
    match stripStep m1 ["sources", "org.osbuild.files"] (.obj []) with
    | .error e => .error e
    | .ok m2 =>
      match stripStep m2 ["sources"] (.obj []) with
      | .error e => .error e
      | .ok m3 =>
        match stripStep m3 ["pipeline", "stages"] (.arr []) with
        | .error e => .error e
        | .ok m4 => stripStep m4 ["pipeline"] (.obj [])

/-- Two spaces of indentation per nesting level (`json.dump(..., indent=2)`). -/
def pad (n : Nat) : String := String.mk (List.replicate n ' ')

/-- JSON string escaping.  The manifests this program handles contain plain
ASCII strings; the `\uXXXX` escapes Python applies to other control and
non-ASCII characters are outside the fragment exercised here. -/
def escChar (c : Char) : String :=
  if c = '"' then "\\\""
  else if c = '\\' then "\\\\"
  else if c = '\n' then "\\n"
  else if c = '\t' then "\\t"
  else if c = '\r' then "\\r"
  else String.singleton c

/-- Escape a JSON string body. -/
def escStr (s : String) : String := String.join (s.toList.map escChar)

/-- Interpose a separator between strings. -/
def joinSep (sep : String) : List String → String
  | [] => ""
  | [x] => x
  | x :: y :: t => x ++ sep ++ joinSep sep (y :: t)

mutual

/-- `json.dump(manifest, stream, indent=2, sort_keys=True)` (mpp.py:106):
the serialized text at a given indentation.  Key sorting is obtained by
dumping the canonical form (`canon`), which sorts keys recursively. -/
def dumpRaw (ind : Nat) : Json → String
  | .null => "null"
  | .bool b => if b then "true" else "false"
  | .num n => toString n
  | .str s => "\"" ++ escStr s ++ "\""
  | .arr [] => "[]"
  | .arr (e :: es) => "[\n" ++
      joinSep ",\n" (dumpItems (ind + 2) (e :: es)) ++
      "\n" ++ pad ind ++ "]"
  | .obj [] => "\x7b\x7d"
  | .obj (kv :: l) => "\x7b\n" ++
      joinSep ",\n" (dumpPairs (ind + 2) (kv :: l)) ++
      "\n" ++ pad ind ++ "\x7d"

/-- Dump each array element at the given indentation. -/
def dumpItems (ind : Nat) : List Json → List String
  | [] => []
  | e :: t => (pad ind ++ dumpRaw ind e) :: dumpItems ind t

/-- Dump each `"key": value` pair at the given indentation. -/
def dumpPairs (ind : Nat) : List (String × Json) → List String
  | [] => []
  | (k, v) :: t => (pad ind ++ "\"" ++ escStr k ++ "\": " ++ dumpRaw ind v) :: dumpPairs ind t

end

/-- `Manifest.to_stream` (mpp.py:102-110): strip defaults, dump with two-space
indentation and sorted keys, and append the trailing newline. -/
def to_stream (m : Json) : Except Err String :=
  match strip m with
  | .error e => .error e
  | .ok s => .ok (dumpRaw 0 (canon s) ++ "\n")

/-- `Manifest.update_urls` (mpp.py:152-154): `self.links["urls"].update(urls)`.
The cached `urls` link aliases the live tree at `urlsPath`, so the write is
a tree update at that path; `.update` on a non-dict value is an
`AttributeError`. -/
def update_urls (m : Json) (urls : List (String × Json)) : Except Err Json :=
  match getPath m urlsPath with
  | some (.obj u) => .ok (setPath m urlsPath (.obj (dupdate u urls)))
  | some _ => .error .typeError
  | none => .error .keyError

/-- `Manifest.update_sources` (mpp.py:156-165): for each source kind, the
file kind must pass the *asserted* `dict_contains_only(value, ["urls"])`
check, after which its `urls` sub-map is merged; any other kind raises
`ValueError("Unknown source type")`. -/
def update_sources (m : Json) : List (String × Json) → Except Err Json
  | [] => .ok m
  | (k, v) :: rest =>
    if k = "org.osbuild.files" then
      match v with
      | .obj vl =>
        if dict_contains_only vl ["urls"] then
          if dhaskey vl "urls" then
            match update_urls m (objEntries ((dget vl "urls").getD .null)) with
            | .ok m' => update_sources m' rest
            | .error e => .error e
          else update_sources m rest
        else .error .assertError
      | _ => .error .typeError
    else .error .unknownSourceError

/-- Python `x[key]` with a string key: dictionary lookup (`KeyError` when
absent), `TypeError` on any other type. -/
def indexStr : Json → String → Except Err Json
  | .obj l, k =>
    match dget l k with
    | some v => .ok v
    | none => .error .keyError
  | _, _ => .error .typeError

/-- A package resolved by the external dnf resolver (spec section 6): a
content checksum, a package name and a path relative to the repository
base URL. -/
structure Dep where
  checksum : String
  name : String
  path : String
  deriving Repr, DecidableEq

/-- The external dependency resolver (`MppDepsolve._dnf_resolve`,
mpp.py:228-287).  The resolver and its dnf/hawkey libraries are external
collaborators; the engine hands them the annotation's options and receives
the resolved package list (or a fatal failure). -/
abbrev Resolver := Json → Except Err (List Dep)

/-- The filesystem seen through `open(os.path.join(cwd, path))` followed by
`json.load`: maps a path to its decoded document; `none` covers both an
unreadable file and a JSON decode failure, which are fatal. -/
abbrev Fs := String → Option Json

/-- `MppDepsolve._collect`, inner stage loop (mpp.py:186-192): iterate the
stages of one level, keeping the paths of `org.osbuild.rpm` stages whose
options carry the `mpp-depsolve` key.  Iterating a non-list raises unless
the value is empty (Python iterates dict keys and string characters, which
immediately fail `.get` when non-empty). -/
def depsolveStages (pre : Path) : Nat → List Json → Except Err (List Path)
  | _, [] => .ok []
  | i, stage :: rest =>
    match stage with
    | .obj sl =>
      (match depsolveStages pre (i + 1) rest with
      | .error e => .error e
      | .ok tail =>
        if (dget sl "name").getD .null = Json.str "org.osbuild.rpm" then
          match jsonContains ((dget sl "options").getD (.obj [])) "mpp-depsolve" with
          | none => .error .typeError
          | some true => .ok ((pre ++ [.idx i]) :: tail)
          | some false => .ok tail
        else .ok tail)
    | _ => .error .typeError

/-- `MppDepsolve._collect`, per level (mpp.py:186-192): read
`itr.get("pipeline", {}).get("stages", [])` and scan it. -/
def depsolveLevel (lvl : Path × Json) : Except Err (List Path) :=
  match (dget (objEntries lvl.2) "pipeline").getD (.obj []) with
  | .obj pl =>
    (match (dget pl "stages").getD (.arr []) with
    | .arr es => depsolveStages (lvl.1 ++ [.key "pipeline", .key "stages"]) 0 es
    | .obj [] => .ok []
    | .str "" => .ok []
    | _ => .error .typeError)
  | _ => .error .typeError

/-- `MppDepsolve._collect` over all levels (mpp.py:184-194). -/
def collectDepsolve (m : Json) : Except Err (List Path) :=
  match levelsFrom [] m with
  | .error e => .error e
  | .ok lvls => go lvls
where
  /-- Concatenate the per-level collections. -/
  go : List (Path × Json) → Except Err (List Path)
  | [] => .ok []
  | lvl :: rest =>
    match depsolveLevel lvl with
    | .error e => .error e
    | .ok ps =>
      match go rest with
      | .error e => .error e
      | .ok tail => .ok (ps ++ tail)

/-- The package loop of `MppDepsolve._process_one` (mpp.py:209-212): for
each resolved package, `dict_enter(todo_options, "packages", [])` then
append the checksum, and record `checksum -> baseurl + "/" + path`.  An
existing non-list `packages` entry has no `.append`; a non-string base URL
cannot be concatenated. -/
def depsolveLoop (baseurl : Json) :
    List (String × Json) → List (String × Json) → List Dep →
    Except Err (List (String × Json) × List (String × Json))
  | ol, urls, [] => .ok (ol, urls)
  | ol, urls, dep :: rest =>
    let ol1 := if dhaskey ol "packages" then ol else dset ol "packages" (.arr [])
    match dget ol1 "packages" with
    | some (.arr pk) =>
      (match baseurl with
      | .str bu =>
        depsolveLoop baseurl (dset ol1 "packages" (.arr (pk ++ [.str dep.checksum])))
          (dset urls dep.checksum (.str (bu ++ "/" ++ dep.path))) rest
      | _ => .error .typeError)
    | some _ => .error .typeError
    | none => .error .keyError

/-- `MppDepsolve._process_one` (mpp.py:196-217): read the stage's options
and its `mpp-depsolve` entry, read the annotated `baseurl`, call the
external resolver, append the resolved checksums to the package list and
register their URLs, then drop the `mpp-depsolve` entry. -/
def depsolveProcessOne (rv : Resolver) (m : Json) (p : Path) : Except Err Json :=
  match getPath m p with
  | some (.obj todo) =>
    (match dget todo "options" with
    | none => .error .keyError
    | some optionsVal =>
      match indexStr optionsVal "mpp-depsolve" with
      | .error e => .error e
      | .ok mppVal =>
        match indexStr mppVal "baseurl" with
        | .error e => .error e
        | .ok baseurlVal =>
          match rv mppVal with
          | .error e => .error e
          | .ok deps =>
            match depsolveLoop baseurlVal (objEntries optionsVal) [] deps with
            | .error e => .error e
            | .ok (ol, urls) =>
              let m1 := setPath m (p ++ [.key "options"]) (.obj ol)
              match update_urls m1 urls with
              | .error e => .error e
              | .ok m2 =>
                .ok (setPath m2 (p ++ [.key "options"]) (.obj (ddel ol "mpp-depsolve"))))
  | some _ => .error .typeError
  | none => .error .keyError

/-- Process the collected nodes in order (the `process` methods,
mpp.py:219-225, 330-336, 369-375). -/
def foldProcess (f : Json → Path → Except Err Json) : Json → List Path → Except Err Json
  | m, [] => .ok m
  | m, p :: rest =>
    match f m p with
    | .ok m' => foldProcess f m' rest
    | .error e => .error e

/-- The shared shape of the three `process` methods (mpp.py:219-225,
330-336, 369-375): collect, process each collected node, report whether
anything was collected. -/
def runPass (collect : Json → Except Err (List Path))
    (pOne : Json → Path → Except Err Json) (m : Json) : Except Err (Json × Bool) :=
  match collect m with
  | .error e => .error e
  | .ok todos =>
    match foldProcess pOne m todos with
    | .error e => .error e
    | .ok m' => .ok (m', !todos.isEmpty)

/-- `MppDepsolve.process` (mpp.py:219-225). -/
def passDepsolve (rv : Resolver) (m : Json) : Except Err (Json × Bool) :=
  runPass collectDepsolve (depsolveProcessOne rv) m

/-- `MppPipelineBase._collect` (mpp.py:297-302): the levels whose
`pipeline` entry carries `mpp-pipeline-base`; the collected node is that
`pipeline` value. -/
def collectBase (m : Json) : Except Err (List Path) :=
  match levelsFrom [] m with
  | .error e => .error e
  | .ok lvls => go lvls
where
  /-- Scan the levels in order. -/
  go : List (Path × Json) → Except Err (List Path)
  | [] => .ok []
  | lvl :: rest =>
    match jsonContains ((dget (objEntries lvl.2) "pipeline").getD (.obj []))
        "mpp-pipeline-base" with
    | none => .error .typeError
    | some true =>
      (match go rest with
      | .error e => .error e
      | .ok tail => .ok ((lvl.1 ++ [.key "pipeline"]) :: tail))
    | some false => go rest

/-- `MppPipelineBase._process_one` (mpp.py:304-328): load the referenced
document, bail out when both the importer's pipeline node and the import's
*root* carry a truthy `build` entry (note: the code consults
`imp.data.get("build")`, the imported document's root, not the imported
pipeline's nested `build`), merge the import's sources, adopt the import's
root `build` entry when truthy, prepend the import's stages, and drop the
`mpp-pipeline-base` entry. -/
def baseProcessOne (fs : Fs) (m : Json) (p : Path) : Except Err Json :=
  match getPath m p with
  | none => .error .keyError
  | some todoVal =>
    match indexStr todoVal "mpp-pipeline-base" with
    | .error e => .error e
    | .ok annVal =>
      match annVal with
      | .str fname =>
        (match fs fname with
        | none => .error .ioError
        | some doc =>
          match refresh doc with
          | .error e => .error e
          | .ok imp =>
            if Json.truthyOpt (dget (objEntries todoVal) "build") &&
               Json.truthyOpt (dget (objEntries imp) "build") then
              .error .conflictError
            else
              match update_sources m (objEntries ((getPath imp sourcesPath).getD (.obj []))) with
              | .error e => .error e
              | .ok m1 =>
                let todo1 := if Json.truthyOpt (dget (objEntries imp) "build") then
                    dset (objEntries todoVal) "build" ((dget (objEntries imp) "build").getD .null)
                  else objEntries todoVal
                match (getPath imp stagesPath).getD (.arr []) with
                | .arr impStages =>
                  (match (dget todo1 "stages").getD (.arr []) with
                  | .arr todoStages =>
                    let stagesList := impStages ++ todoStages
                    let todo2 := if stagesList.isEmpty then todo1
                      else dset todo1 "stages" (.arr stagesList)
                    .ok (setPath m1 p (.obj (ddel todo2 "mpp-pipeline-base")))
                  | _ => .error .typeError)
                | _ => .error .typeError)
      | _ => .error .typeError

/-- `MppPipelineBase.process` (mpp.py:330-336). -/
def passBase (fs : Fs) (m : Json) : Except Err (Json × Bool) :=
  runPass collectBase (baseProcessOne fs) m

/-- `MppPipelineImport._collect` (mpp.py:346-351): the levels that
themselves carry `mpp-pipeline-import`. -/
def collectImport (m : Json) : Except Err (List Path) :=
  match levelsFrom [] m with
  | .error e => .error e
  | .ok lvls => go lvls
where
  /-- Scan the levels in order. -/
  go : List (Path × Json) → Except Err (List Path)
  | [] => .ok []
  | lvl :: rest =>
    if dhaskey (objEntries lvl.2) "mpp-pipeline-import" then
      match go rest with
      | .error e => .error e
      | .ok tail => .ok (lvl.1 :: tail)
    else go rest

/-- `MppPipelineImport._process_one` (mpp.py:353-367): load the referenced
document, merge its sources, replace the node's `pipeline` wholesale with
the import's pipeline link, and drop the `mpp-pipeline-import` entry. -/
def importProcessOne (fs : Fs) (m : Json) (p : Path) : Except Err Json :=
  match getPath m p with
  | none => .error .keyError
  | some todoVal =>
    match indexStr todoVal "mpp-pipeline-import" with
    | .error e => .error e
    | .ok annVal =>
      match annVal with
      | .str fname =>
        (match fs fname with
        | none => .error .ioError
        | some doc =>
          match refresh doc with
          | .error e => .error e
          | .ok imp =>
            match update_sources m (objEntries ((getPath imp sourcesPath).getD (.obj []))) with
            | .error e => .error e
            | .ok m1 =>
              let todo1 := dset (objEntries todoVal) "pipeline"
                ((getPath imp pipelinePath).getD .null)
              .ok (setPath m1 p (.obj (ddel todo1 "mpp-pipeline-import"))))
      | _ => .error .typeError

/-- `MppPipelineImport.process` (mpp.py:369-375). -/
def passImport (fs : Fs) (m : Json) : Except Err (Json × Bool) :=
  runPass collectImport (importProcessOne fs) m

/-- One driver-loop step for one pass (mpp.py:463-466): when the pass
reports progress, the manifest is refreshed immediately, before the next
pass runs. -/
def passStep (res : Except Err (Json × Bool)) : Except Err (Json × Bool) :=
  match res with
  | .error e => .error e
  | .ok (m1, p1) =>
    match (if p1 then refresh m1 else .ok m1) with
    | .error e => .error e
    | .ok m1r => .ok (m1r, p1)

/-- One round of `Mpp.run`'s driver loop (mpp.py:460-466): run the three
passes in order, refreshing after each one that reports progress. -/
def roundOnce (fs : Fs) (rv : Resolver) (m : Json) : Except Err (Json × Bool) :=
  match passStep (passDepsolve rv m) with
  | .error e => .error e
  | .ok (m1, p1) =>
    match passStep (passBase fs m1) with
    | .error e => .error e
    | .ok (m2, p2) =>
      match passStep (passImport fs m2) with
      | .error e => .error e
      | .ok (m3, p3) => .ok (m3, p1 || p2 || p3)

/-- The fixed-point driver (`Mpp.run`, mpp.py:451-470), given fuel: repeat
rounds while some pass reports progress.  The code itself has no fuel - no
iteration or cycle guard - so fuel exhaustion (`ok none`) means the real
loop is still running after that many rounds. -/
def runFuel (fs : Fs) (rv : Resolver) : Nat → Json → Except Err (Option Json)
  | 0, _ => .ok none
  | n + 1, m =>
    match roundOnce fs rv m with
    | .error e => .error e
    | .ok (m', true) => runFuel fs rv n m'
    | .ok (m', false) => .ok (some m')

/-- The whole engine on one document (`Mpp.__enter__` + `Mpp.run`): decode
(already-parsed `doc`), construct the manifest (refresh), iterate to the
fixed point, serialize.  `ok none` is fuel exhaustion. -/
def mppEngine (fs : Fs) (rv : Resolver) (fuel : Nat) (doc : Json) :
    Except Err (Option String) :=
  match refresh doc with
  | .error e => .error e
  | .ok m =>
    match runFuel fs rv fuel m with
    | .error e => .error e
    | .ok none => .ok none
    | .ok (some m') =>
      match to_stream m' with
      | .error e => .error e
      | .ok s => .ok (some s)

/-! ## The object store (`src/mdb/mdb.py`)

A store directory is a finite map from file name to content (bytes as
`List Nat`).  The SHA-256 hex digest computed by `hashlib` is an external
library; it enters the embedding as a parameter `hex : ByteSeq → String`
(the lowercase hex digest of the bytes).  A streaming writer (a download or
the mpp subprocess's standard output) is the list of chunks it produced
plus whether it completed successfully; `O_TMPFILE` makes the stream
anonymous, so the directory is untouched while the chunks are written. -/

/-- File content, as bytes. -/
abbrev ByteSeq := List Nat

/-- A store directory: file name to content. -/
abbrev Store := List (String × ByteSeq)

/-- Lookup a file in a directory. -/
def sget : Store → String → Option ByteSeq
  | [], _ => none
  | (n, c) :: t, k => if n = k then some c else sget t k

/-- `os.unlink(name)` with `ENOENT` suppressed (mdb.py:62-63): drop the
entry if present. -/
def sdel : Store → String → Store
  | [], _ => []
  | (n, c) :: t, k => if n = k then t else (n, c) :: sdel t k

/-- Errors raised by the mdb commands. -/
inductive MdbErr where
  | downloadError
  | checksumMismatch
  | wrongChecksum
  | mppFailed
  deriving Repr, DecidableEq

/-- A streaming writer's run: the chunks it produced and whether it
completed (for the mpp subprocess: a zero exit status). -/
structure WriterRun where
  chunks : List ByteSeq
  ok : Bool
  deriving Repr, DecidableEq

/-- The `ctx` dictionary of `open_tmpfile` (mdb.py:50): the name chosen for
publication (still `None` when the body failed before choosing one) and the
`link` / `unlink` flags (never cleared by any caller in this code base). -/
structure TmpCtx where
  name : Option String
  link : Bool
  unlink : Bool
  deriving Repr, DecidableEq

/-- `open_tmpfile` (mdb.py:46-70): open an anonymous (`O_TMPFILE`) stream
in the directory and run the body.  If the body raises, the stream is
dropped and the directory is untouched.  If the body completes and chose a
name, any prior entry of that name is unlinked (tolerating absence) and the
stream is linked into the directory under that name, fully formed. -/
def open_tmpfile (dir : Store) (body : Except MdbErr (ByteSeq × TmpCtx)) :
    Store × Option MdbErr :=
  match body with
  | .error e => (dir, some e)
  | .ok (content, ctx) =>
    match ctx.name with
    | none => (dir, none)
    | some n =>
      let d1 := if ctx.unlink then sdel dir n else dir
      let d2 := if ctx.link then d1 ++ [(n, content)] else d1
      (d2, none)

/-- One iteration of `MdbPrefetch._process_org_osbuild_files`'s URL loop
(mdb.py:138-168): when a readable file of the expected name exists, re-hash
it and fail with `ValueError("Wrong checksum ...")` on mismatch; otherwise
download through `open_tmpfile`, hashing while streaming, fail with
`ValueError("Checksum mismatch ...")` when the digest differs from the
expected address, and only then choose the address as the name. -/
def prefetchOne (hex : ByteSeq → String) (dir : Store) (checksum : String)
    (download : WriterRun) : Store × Option MdbErr :=
  match sget dir checksum with
  | some cached =>
    if "sha256:" ++ hex cached = checksum then (dir, none)
    else (dir, some .wrongChecksum)
  | none =>
    open_tmpfile dir
      (if download.ok then
        let content := download.chunks.flatten
        if "sha256:" ++ hex content = checksum then
          .ok (content, ⟨some checksum, true, true⟩)
        else .error .checksumMismatch
      else .error .downloadError)

/-- The URL loop of `MdbPrefetch._process_org_osbuild_files` (mdb.py:138):
process the checksum/url entries in order, aborting on the first error
(all mdb errors are fatal); already-published entries stay published. -/
def prefetchAll (hex : ByteSeq → String) (net : String → WriterRun) :
    Store → List (String × String) → Store × Option MdbErr
  | dir, [] => (dir, none)
  | dir, (checksum, url) :: rest =>
    match prefetchOne hex dir checksum (net url) with
    | (dir', none) => prefetchAll hex net dir' rest
    | (dir', some e) => (dir', some e)

/-- The `by-tag` mirror: relative source path to the `by-checksum` entry
name its symlink points at. -/
abbrev TagDir := List (String × String)

/-- Replace or add a tag entry (`os.unlink` tolerating absence, then
`os.symlink`; mdb.py:250-252). -/
def tset : TagDir → String → String → TagDir
  | [], k, v => [(k, v)]
  | (k', v') :: t, k, v => if k' = k then (k, v) :: t else (k', v') :: tset t k v

/-- `MdbPreprocess._process` (mdb.py:206-252): stream the mpp subprocess's
output for one source file into an anonymous file in `by-checksum`, hashing
on the fly; a non-zero exit status is fatal (`RuntimeError("MPP failed")`)
and nothing is linked; on success link the content under
`"sha256-" + hexdigest` and point the `by-tag/<path>` symlink at it. -/
def preprocessOne (hex : ByteSeq → String) (byChecksum : Store) (byTag : TagDir)
    (path : String) (mppOut : WriterRun) : Store × TagDir × Option MdbErr :=
  let content := mppOut.chunks.flatten
  let hashFile := "sha256-" ++ hex content
  match open_tmpfile byChecksum
      (if mppOut.ok then .ok (content, ⟨some hashFile, true, true⟩)
       else .error .mppFailed) with
  | (bc', some e) => (bc', byTag, some e)
  | (bc', none) => (bc', tset byTag path hashFile, none)

/-! ## Spec-side definitions and concrete inputs used by the claims -/

/-- Remove the dictionary entry at the last component of a path (the
sub-tree walk of a removal; identity when the path does not resolve). -/
def removeAtPath : Json → Path → Json
  | .obj l, [.key k] => .obj (ddel l k)
  | .obj l, .key k :: p1 :: p2 =>
    (match dget l k with
    | some c => .obj (dset l k (removeAtPath c (p1 :: p2)))
    | none => .obj l)
  | j, _ => j

/-- The minimal serialized form as the spec words it (spec sections 4.2 and
8): "for each cached link, if the live value at that path still equals that
link's declared default, remove it from the tree being serialized - applied
path-by-path from deepest to shallowest".  This is the spec-side definition
against which `strip` (the code) is compared. -/
def minimalFormSpec (m : Json) : Json :=
  step (step (step (step (step m urlsPath (.obj [])) filesPath (.obj []))
    sourcesPath (.obj [])) stagesPath (.arr [])) pipelinePath (.obj [])
where
  /-- Remove the entry at the path when its value still equals the default. -/
  step (m : Json) (p : Path) (dflt : Json) : Json :=
    match getPath m p with
    | some v => if pyEq v dflt then removeAtPath m p else m
    | none => m

/-- Key membership in a key list. -/
def keymem : List String → String → Bool
  | [], _ => false
  | k' :: t, k => k' = k || keymem t k

/-- No key occurs twice (the property of dictionaries decoded from JSON:
`json.load` produces dicts, whose keys are unique). -/
def nokeydup : List String → Bool
  | [] => true
  | k :: t => !(keymem t k) && nokeydup t

mutual

/-- Well-formedness of a document decoded from JSON: every object in the
tree has pairwise-distinct keys.  `json.load` guarantees this for every
document the program reads. -/
def jnodup : Json → Bool
  | .null => true
  | .bool _ => true
  | .num _ => true
  | .str _ => true
  | .arr es => jnodupL es
  | .obj l => nokeydup (l.map Prod.fst) && jnodupE l

/-- Well-formedness of each array element. -/
def jnodupL : List Json → Bool
  | [] => true
  | j :: t => jnodup j && jnodupL t

/-- Well-formedness of each entry value. -/
def jnodupE : List (String × Json) → Bool
  | [] => true
  | (_, v) :: t => jnodup v && jnodupE t

end

/-- An empty filesystem (no importable sibling manifests). -/
def noFs : Fs := fun _ => none

/-- A resolver stub returning no packages. -/
def rvEmpty : Resolver := fun _ => .ok []

/-- C1: a root document carrying a key outside the recognized
root set `pipeline`/`sources`. -/
def c1doc : Json := .obj [("bogus", .bool true)]

/-- C1: what `refresh` makes of `c1doc` - the unrecognized key is kept and
the link defaults are inserted; no error is raised. -/
def c1refreshed : Json := .obj
  [("bogus", .bool true),
   ("pipeline", .obj [("stages", .arr [])]),
   ("sources", .obj [("org.osbuild.files", .obj [("urls", .obj [])])])]

/-- C2: an imported document that defines a nested `build` pipeline (at
`pipeline.build`, where the manifest schema nests build pipelines). -/
def c2importedDoc : Json :=
  .obj [("pipeline", .obj [("build", .obj [("pipeline", .obj [])])])]

/-- C2: a filesystem holding the imported document under `base.json`. -/
def c2fs : Fs := fun p => if p = "base.json" then some c2importedDoc else none

/-- C2: an importing document whose pipeline node both carries the
base-import mark and already has a nested `build` pipeline. -/
def c2importerWithBuild : Json := .obj [("pipeline", .obj
  [("mpp-pipeline-base", .str "base.json"),
   ("build", .obj [("pipeline", .obj [("stages", .arr [])])])])]

/-- C2: an importing document whose pipeline node carries the base-import
mark and has no `build` pipeline. -/
def c2importerNoBuild : Json := .obj [("pipeline", .obj
  [("mpp-pipeline-base", .str "base.json")])]

/-- C3: the `mpp-depsolve` options exactly as the claim's input manifest
gives them (no `baseurl`). -/
def c3mpp : Json := .obj [("architecture", .str "x86_64"), ("fedora", .num 38),
  ("packages", .arr [.str "bash"])]

/-- C3: the same options with the `baseurl` the code actually reads
(mpp.py:199) added. -/
def c3mppAmended : Json := .obj [("architecture", .str "x86_64"),
  ("fedora", .num 38), ("packages", .arr [.str "bash"]),
  ("baseurl", .str "https://example/repo")]

/-- C3: the input manifest around the given depsolve options. -/
def c3doc (mpp : Json) : Json := .obj [("pipeline", .obj [("stages", .arr
  [.obj [("name", .str "org.osbuild.rpm"),
         ("options", .obj [("mpp-depsolve", mpp)])]])])]

/-- C3: the resolver stub of the claim. -/
def c3rv : Resolver := fun _ => .ok [⟨"sha256:cc", "bash", "Packages/bash.rpm"⟩]

/-- C3: the manifest the engine converges to on the amended input. -/
def c3final : Json := .obj
  [("pipeline", .obj [("stages", .arr [.obj [("name", .str "org.osbuild.rpm"),
     ("options", .obj [("packages", .arr [.str "sha256:cc"])])]])]),
   ("sources", .obj [("org.osbuild.files", .obj [("urls",
     .obj [("sha256:cc", .str "https://example/repo/Packages/bash.rpm")])])])]

/-- C4/C5/C10 witness: the freshly loaded empty manifest (all links at
their inserted defaults). -/
def emptyLoaded : Json := .obj
  [("pipeline", .obj [("stages", .arr [])]),
   ("sources", .obj [("org.osbuild.files", .obj [("urls", .obj [])])])]

/-- C9: a node carrying a fragment-import mark pointing at `t`. -/
def annImport (t : String) : Json := .obj [("mpp-pipeline-import", .str t)]

/-- C9: the document stored under each of the two files: its nested build
node imports the other file. -/
def c9file (t : String) : Json := .obj [("pipeline", .obj [("build", annImport t)])]

/-- C9: two manifests that import each other through their build nodes. -/
def fs9 : Fs := fun p =>
  if p = "a" then some (c9file "b")
  else if p = "b" then some (c9file "a") else none

/-- C9: the ever-deepening build chain: `c9nest k x` wraps `x` in `k`
layers of `{"pipeline": {"build": ..., "stages": []}}` (the shape a
processed fragment import leaves behind). -/
def c9nest : Nat → Json → Json
  | 0, x => x
  | k + 1, x => .obj [("pipeline", .obj [("build", c9nest k x), ("stages", .arr [])])]

/-- C9: the import target alternates between the two files. -/
def c9target (k : Nat) : String := if k % 2 = 0 then "b" else "a"

/-- C9: the manifest after `k` driver rounds, starting from the loaded
content of file `a`: the chain is `k` processed wrappers deep and still
ends in an unconsumed import mark. -/
def c9state (k : Nat) : Json := .obj
  [("pipeline", .obj [("build", c9nest k (annImport (c9target k))), ("stages", .arr [])]),
   ("sources", .obj [("org.osbuild.files", .obj [("urls", .obj [])])])]

/-- C9: the path suffix descending `j` further build levels. -/
def c9pbs : Nat → Path
  | 0 => []
  | j + 1 => [.key "pipeline", .key "build"] ++ c9pbs j

/-- C9: the levels collected when walking a `c9nest` chain that ends in
an import mark. -/
def c9chain (pre : Path) : Nat → String → List (Path × Json)
  | 0, t => [(pre, annImport t)]
  | j + 1, t => (pre, c9nest (j + 1) (annImport t)) ::
      c9chain (pre ++ [.key "pipeline", .key "build"]) j t

/-- C9: the manifest loaded from either of the two files (the file named
`t` is imported by it). -/
def c9loaded (t : String) : Json := .obj
  [("pipeline", .obj [("build", annImport t), ("stages", .arr [])]),
   ("sources", .obj [("org.osbuild.files", .obj [("urls", .obj [])])])]

/-- C2: `c2importerWithBuild` after loading. -/
def c2loadedWithBuild : Json := .obj
  [("pipeline", .obj
    [("mpp-pipeline-base", .str "base.json"),
     ("build", .obj [("pipeline", .obj [("stages", .arr [])])]),
     ("stages", .arr [])]),
   ("sources", .obj [("org.osbuild.files", .obj [("urls", .obj [])])])]

/-- C2: what the base-import pass makes of `c2loadedWithBuild`: no conflict
error; the importer's own `build` is kept and the import's nested `build`
is silently dropped. -/
def c2resultWithBuild : Json := .obj
  [("pipeline", .obj
    [("build", .obj [("pipeline", .obj [("stages", .arr [])])]),
     ("stages", .arr [])]),
   ("sources", .obj [("org.osbuild.files", .obj [("urls", .obj [])])])]

/-- C2: `c2importerNoBuild` after loading. -/
def c2loadedNoBuild : Json := .obj
  [("pipeline", .obj
    [("mpp-pipeline-base", .str "base.json"), ("stages", .arr [])]),
   ("sources", .obj [("org.osbuild.files", .obj [("urls", .obj [])])])]

/-- C2: what the base-import pass makes of `c2loadedNoBuild`: the import's
nested `build` pipeline is *not* adopted. -/
def c2resultNoBuild : Json := .obj
  [("pipeline", .obj [("stages", .arr [])]),
   ("sources", .obj [("org.osbuild.files", .obj [("urls", .obj [])])])]

/-- C3: the amended input manifest after loading. -/
def c3loaded : Json := .obj
  [("pipeline", .obj [("stages", .arr [.obj [("name", .str "org.osbuild.rpm"),
     ("options", .obj [("mpp-depsolve", c3mppAmended)])]])]),
   ("sources", .obj [("org.osbuild.files", .obj [("urls", .obj [])])])]

/-- A concrete stand-in digest function for witnesses (the protocol
theorems hold for every digest function, the real SHA-256 included). -/
def hexConst : ByteSeq → String := fun _ => "00"

/-- Decidable equality for `Except` results (not provided by the core
library). -/
instance {ε α : Type} [DecidableEq ε] [DecidableEq α] : DecidableEq (Except ε α) :=
  fun a b =>
  match a, b with
  | .ok x, .ok y => if h : x = y then .isTrue (by rw [h]) else .isFalse (by simp [h])
  | .error x, .error y => if h : x = y then .isTrue (by rw [h]) else .isFalse (by simp [h])
  | .ok _, .error _ => .isFalse (by simp)
  | .error _, .ok _ => .isFalse (by simp)

/-! ## Theorems -/

/-- `dget` returns a strictly smaller value. -/
theorem jsize_dget {l : List (String × Json)} {k : String} {v : Json}
    (h : dget l k = some v) : jsize v < jsize (Json.obj l) := by
  have hE : jsize v < 1 + jsizeE l := by
    induction l with
    | nil => simp [dget] at h
    | cons e t ih =>
      rcases e with ⟨k', v'⟩
      rw [dget] at h
      by_cases he : k' = k
      · rw [if_pos he] at h
        injection h with h
        subst h
        rw [jsizeE]
        omega
      · rw [if_neg he] at h
        have := ih h
        rw [jsizeE]
        omega
  rw [jsize]
  omega

/-- Every JSON value has positive size. -/
theorem jsize_pos (j : Json) : 0 < jsize j := by
  cases j <;> simp [jsize]

/-- The levels walk does not depend on the recursion bound, as long as the
bound covers the node's size (the walk strictly descends the tree). -/
theorem levelsGo_congr {f1 f2 : Nat} {pre : Path} {j : Json}
    (h1 : jsize j ≤ f1) (h2 : jsize j ≤ f2) :
    levelsGo f1 pre j = levelsGo f2 pre j := by
  induction f1 generalizing f2 pre j with
  | zero => have := jsize_pos j; omega
  | succ f ih =>
    cases f2 with
    | zero => have := jsize_pos j; omega
    | succ f2' =>
      cases j with
      | obj l =>
        by_cases ht : Json.truthy (Json.obj l)
        · rw [levelsGo, levelsGo]
          simp only [ht, if_true]
          cases hp : dget l "pipeline" with
          | none => rfl
          | some p =>
            by_cases htp : Json.truthy p
            · cases p with
              | obj pl =>
                simp only [htp, if_true]
                cases hb : dget pl "build" with
                | none => rfl
                | some b =>
                  have hsb : jsize b < jsize (Json.obj l) := by
                    have hx := jsize_dget hp
                    have hy := jsize_dget hb
                    omega
                  dsimp only
                  rw [@ih f2' (pre ++ [PathElem.key "pipeline", PathElem.key "build"]) b (by omega) (by omega)]
              | null => simp [htp]
              | bool b => simp [htp]
              | num n => simp [htp]
              | str s => simp [htp]
              | arr es => simp [htp]
            · simp [htp]
        · rw [levelsGo, levelsGo]
          simp [ht]
      | null => rfl
      | bool b => rfl
      | num n => rfl
      | str s => rfl
      | arr es => rfl

/-- The natural unfolding of the levels walk (mpp.py:134-139). -/
theorem levelsFrom_eq (pre : Path) (j : Json) :
    levelsFrom pre j =
      (if Json.truthy j then
        match j with
        | .obj l =>
          (match dget l "pipeline" with
          | none => .ok [(pre, .obj l)]
          | some p =>
            if Json.truthy p then
              match p with
              | .obj pl =>
                (match dget pl "build" with
                | none => .ok [(pre, .obj l)]
                | some b =>
                  match levelsFrom (pre ++ [.key "pipeline", .key "build"]) b with
                  | .ok rest => .ok ((pre, .obj l) :: rest)
                  | .error e => .error e)
              | _ => .error .typeError
            else .ok [(pre, .obj l)])
        | _ => .error .typeError
      else .ok []) := by
  cases j with
  | obj l =>
    have hsz : jsize (Json.obj l) = jsizeE l + 1 := by rw [jsize]; omega
    rw [levelsFrom, hsz, levelsGo]
    by_cases ht : Json.truthy (Json.obj l)
    · simp only [ht, if_true]
      cases hp : dget l "pipeline" with
      | none => rfl
      | some p =>
        by_cases htp : Json.truthy p
        · cases p with
          | obj pl =>
            simp only [htp, if_true]
            cases hb : dget pl "build" with
            | none => rfl
            | some b =>
              have hsb : jsize b < jsize (Json.obj l) := by
                have hx := jsize_dget hp
                have hy := jsize_dget hb
                omega
              dsimp only
              rw [levelsFrom, @levelsGo_congr (jsizeE l) (jsize b)
                (pre ++ [PathElem.key "pipeline", PathElem.key "build"]) b
                (by omega) (by omega)]
          | null => simp [htp]
          | bool b => simp [htp]
          | num n => simp [htp]
          | str s => simp [htp]
          | arr es => simp [htp]
        · simp [htp]
    · simp [ht]
  | null => rfl
  | bool b => rfl
  | num n => rfl
  | str s => rfl
  | arr es =>
    have hsz : jsize (Json.arr es) = jsizeL es + 1 := by rw [jsize]; omega
    rw [levelsFrom, hsz]
    rfl

/-- Looking up the key just set finds the new value. -/
theorem dget_dset_self (l : List (String × Json)) (k : String) (v : Json) :
    dget (dset l k v) k = some v := by
  induction l with
  | nil => simp [dset, dget]
  | cons e t ih =>
    rcases e with ⟨k', v'⟩
    rw [dset]
    by_cases he : k' = k
    · rw [if_pos he, dget, if_pos rfl]
    · rw [if_neg he, dget, if_neg he]
      exact ih

/-- Setting one key does not change lookups of another. -/
theorem dget_dset_ne {l : List (String × Json)} {k k' : String} {v : Json}
    (h : k ≠ k') : dget (dset l k v) k' = dget l k' := by
  induction l with
  | nil => simp [dset, dget, h]
  | cons e t ih =>
    rcases e with ⟨k0, v0⟩
    rw [dset]
    by_cases he : k0 = k
    · rw [if_pos he, dget, dget, he]
      rw [if_neg h, if_neg (he ▸ h)]
    · rw [if_neg he, dget, dget]
      by_cases he' : k0 = k'
      · rw [if_pos he', if_pos he']
      · rw [if_neg he', if_neg he']
        exact ih

/-- Setting a key to the value it already has changes nothing. -/
theorem dset_self {l : List (String × Json)} {k : String} {v : Json}
    (h : dget l k = some v) : dset l k v = l := by
  induction l with
  | nil => simp [dget] at h
  | cons e t ih =>
    rcases e with ⟨k', v'⟩
    rw [dget] at h
    rw [dset]
    by_cases he : k' = k
    · rw [if_pos he] at h
      injection h with h
      rw [if_pos he, he, h]
    · rw [if_neg he] at h
      rw [if_neg he, ih h]

/-- Deleting one key does not change lookups of another. -/
theorem dget_ddel_ne {l : List (String × Json)} {k k' : String}
    (h : k ≠ k') : dget (ddel l k) k' = dget l k' := by
  induction l with
  | nil => rfl
  | cons e t ih =>
    rcases e with ⟨k0, v0⟩
    rw [ddel]
    by_cases he : k0 = k
    · rw [if_pos he, dget, if_neg (he ▸ h)]
    · rw [if_neg he, dget, dget]
      by_cases he' : k0 = k'
      · rw [if_pos he', if_pos he']
      · rw [if_neg he', if_neg he']
        exact ih

/-- Characterize a successful one-component `enterPath`. -/
theorem enterPath_one_elim {j j' dflt : Json} {k : String}
    (h : enterPath j [k] dflt = .ok j') :
    ∃ l, j = .obj l ∧ j' = .obj (enterOne l k dflt) := by
  cases j with
  | obj l =>
    rw [enterPath] at h
    injection h with h
    exact ⟨l, rfl, h.symm⟩
  | null => exact Except.noConfusion h
  | bool b => exact Except.noConfusion h
  | num n => exact Except.noConfusion h
  | str s => exact Except.noConfusion h
  | arr es => exact Except.noConfusion h

/-- Characterize a successful multi-component `enterPath` step. -/
theorem enterPath_cons_elim {j j' dflt : Json} {k1 k2 : String} {rest : List String}
    (h : enterPath j (k1 :: k2 :: rest) dflt = .ok j') :
    ∃ l c c', j = .obj l ∧ dget l k1 = some c ∧
      enterPath c (k2 :: rest) dflt = .ok c' ∧ j' = .obj (dset l k1 c') := by
  cases j with
  | obj l =>
    rw [enterPath] at h
    cases hg : dget l k1 with
    | none => rw [hg] at h; exact absurd h (by simp)
    | some c =>
      rw [hg] at h
      dsimp only at h
      cases he : enterPath c (k2 :: rest) dflt with
      | error e => rw [he] at h; exact absurd h (by simp)
      | ok c' =>
        rw [he] at h
        injection h with h
        exact ⟨l, c, c', rfl, hg, he, h.symm⟩
  | null => exact Except.noConfusion h
  | bool b => exact Except.noConfusion h
  | num n => exact Except.noConfusion h
  | str s => exact Except.noConfusion h
  | arr es => exact Except.noConfusion h

/-- Setting the same key twice keeps only the second value. -/
theorem dset_dset (l : List (String × Json)) (k : String) (v w : Json) :
    dset (dset l k v) k w = dset l k w := by
  induction l with
  | nil => simp [dset]
  | cons e t ih =>
    rcases e with ⟨k', v'⟩
    rw [dset]
    by_cases he : k' = k
    · rw [if_pos he, dset, if_pos rfl, dset, if_pos he]
    · rw [if_neg he, dset, if_neg he, dset, if_neg he, ih]

/-- Decompose a successful `refresh` (mpp.py:112-150) into its five
`dict_enter` walks: the result is the input with the pipeline, stages,
sources, files and urls entries entered (each inserted as its default when
absent), and its levels walk succeeds.  `pl0`, `sl0`, `fl0` are the
pipeline, sources and files objects as seen after the preceding
insertions. -/
theorem refresh_elim {d m : Json} (h : refresh d = .ok m) :
    ∃ (dl pl0 sl0 fl0 : List (String × Json)) (lv : List (Path × Json)),
      d = .obj dl ∧
      dget (enterOne dl "pipeline" (.obj [])) "pipeline" = some (.obj pl0) ∧
      dget (enterOne (dset (enterOne dl "pipeline" (.obj [])) "pipeline"
          (.obj (enterOne pl0 "stages" (.arr [])))) "sources" (.obj []))
        "sources" = some (.obj sl0) ∧
      dget (enterOne sl0 "org.osbuild.files" (.obj []))
        "org.osbuild.files" = some (.obj fl0) ∧
      m = .obj (dset (enterOne (dset (enterOne dl "pipeline" (.obj [])) "pipeline"
          (.obj (enterOne pl0 "stages" (.arr [])))) "sources" (.obj []))
        "sources" (.obj (dset (enterOne sl0 "org.osbuild.files" (.obj []))
          "org.osbuild.files" (.obj (enterOne fl0 "urls" (.obj [])))))) ∧
      levelsFrom [] m = .ok lv := by
  cases d with
  | null => exact Except.noConfusion h
  | bool b => exact Except.noConfusion h
  | num n => exact Except.noConfusion h
  | str s => exact Except.noConfusion h
  | arr es => exact Except.noConfusion h
  | obj dl =>
    rw [refresh] at h
    cases he1 : enterPath (.obj dl) ["pipeline"] (.obj []) with
    | error e => rw [he1] at h; exact absurd h (by simp)
    | ok d1 =>
      rw [he1] at h
      dsimp only at h
      obtain ⟨l1x, hl1x, hd1⟩ := enterPath_one_elim he1
      injection hl1x with hl1x
      subst hl1x
      subst hd1
      cases he2 : enterPath (.obj (enterOne dl "pipeline" (.obj [])))
          ["pipeline", "stages"] (.arr []) with
      | error e => rw [he2] at h; exact absurd h (by simp)
      | ok d2 =>
        rw [he2] at h
        dsimp only at h
        obtain ⟨l2x, c2, c2', hl2x, hg2, he2', hd2⟩ := enterPath_cons_elim he2
        injection hl2x with hl2x
        subst hl2x
        subst hd2
        obtain ⟨pl0, hpl0, hc2'⟩ := enterPath_one_elim he2'
        subst hpl0
        subst hc2'
        cases he3 : enterPath (.obj (dset (enterOne dl "pipeline" (.obj []))
            "pipeline" (.obj (enterOne pl0 "stages" (.arr [])))))
            ["sources"] (.obj []) with
        | error e => rw [he3] at h; exact absurd h (by simp)
        | ok d3 =>
          rw [he3] at h
          dsimp only at h
          obtain ⟨l3x, hl3x, hd3⟩ := enterPath_one_elim he3
          injection hl3x with hl3x
          subst hl3x
          subst hd3
          cases he4 : enterPath (.obj (enterOne (dset (enterOne dl "pipeline"
              (.obj [])) "pipeline" (.obj (enterOne pl0 "stages" (.arr []))))
              "sources" (.obj []))) ["sources", "org.osbuild.files"] (.obj []) with
          | error e => rw [he4] at h; exact absurd h (by simp)
          | ok d4 =>
            rw [he4] at h
            dsimp only at h
            obtain ⟨l4x, c4, c4', hl4x, hg4, he4', hd4⟩ := enterPath_cons_elim he4
            injection hl4x with hl4x
            subst hl4x
            subst hd4
            obtain ⟨sl0, hsl0, hc4'⟩ := enterPath_one_elim he4'
            subst hsl0
            subst hc4'
            cases he5 : enterPath (.obj (dset (enterOne (dset (enterOne dl
                "pipeline" (.obj [])) "pipeline" (.obj (enterOne pl0 "stages"
                (.arr [])))) "sources" (.obj [])) "sources"
                (.obj (enterOne sl0 "org.osbuild.files" (.obj [])))))
                ["sources", "org.osbuild.files", "urls"] (.obj []) with
            | error e => rw [he5] at h; exact absurd h (by simp)
            | ok d5 =>
              rw [he5] at h
              dsimp only at h
              obtain ⟨l5x, c5, c5', hl5x, hg5, he5', hd5⟩ := enterPath_cons_elim he5
              injection hl5x with hl5x
              subst hl5x
              subst hd5
              obtain ⟨l6x, c6, c6', hl6x, hg6, he6', hd6⟩ := enterPath_cons_elim he5'
              subst hl6x
              subst hd6
              obtain ⟨fl0, hfl0, hc6'⟩ := enterPath_one_elim he6'
              subst hfl0
              subst hc6'
              rw [dget_dset_self] at hg5
              injection hg5 with hg5
              split at h
              · exact absurd h (by simp)
              · rename_i lv hlv
                injection h with h
                injection hg5 with hg5e
                refine ⟨dl, pl0, sl0, fl0, lv, rfl, hg2, hg4, ?_, ?_, ?_⟩
                · rw [hg5e]
                  exact hg6
                · rw [hg5e, ← h, dset_dset]
                · rw [← h]
                  exact hlv

/-- `dict_enter` does not change lookups of other keys. -/
theorem dget_enterOne_ne {l : List (String × Json)} {k k' : String} {v : Json}
    (h : k ≠ k') : dget (enterOne l k v) k' = dget l k' := by
  rw [enterOne]
  split
  · rfl
  · exact dget_dset_ne h

/-- `dict_enter` keeps an existing value. -/
theorem dget_enterOne_of_some {l : List (String × Json)} {k : String} {v w : Json}
    (h : dget l k = some w) : dget (enterOne l k v) k = some w := by
  rw [enterOne, dhaskey, h]
  simp [h]

/-- `dict_enter` inserts the default when the key is absent. -/
theorem dget_enterOne_of_none {l : List (String × Json)} {k : String} {v : Json}
    (h : dget l k = none) : dget (enterOne l k v) k = some v := by
  rw [enterOne, dhaskey, h]
  simp [dget_dset_self]

/-- After `dict_enter`, the key is present. -/
theorem dget_enterOne_isSome (l : List (String × Json)) (k : String) (v : Json) :
    (dget (enterOne l k v) k).isSome := by
  cases hx : dget l k with
  | some w => rw [dget_enterOne_of_some hx]; rfl
  | none => rw [dget_enterOne_of_none hx]; rfl

/-- Reading the empty path returns the tree itself. -/
theorem getPath_nil (j : Json) : getPath j [] = some j := by cases j <;> rfl

/-- Writing at the empty path replaces the tree. -/
theorem setPath_nil (j v : Json) : setPath j [] v = v := by cases j <;> rfl

/-- Writing through a path that resolves makes the new value the one read
back at that path. -/
theorem getPath_setPath_self {m : Json} {p : Path} {v0 v : Json}
    (h : getPath m p = some v0) : getPath (setPath m p v) p = some v := by
  induction p generalizing m v0 with
  | nil => rw [setPath_nil, getPath_nil]
  | cons pe rest ih =>
    cases pe with
    | key k =>
      cases m with
      | obj l =>
        rw [getPath] at h
        cases hg : dget l k with
        | none => rw [hg] at h; exact Option.noConfusion h
        | some c =>
          rw [hg] at h
          dsimp only [Option.bind] at h
          rw [setPath, hg, getPath, dget_dset_self]
          dsimp only [Option.bind]
          exact ih h
      | null => exact Option.noConfusion h
      | bool b => exact Option.noConfusion h
      | num n => exact Option.noConfusion h
      | str s => exact Option.noConfusion h
      | arr es => exact Option.noConfusion h
    | idx i =>
      cases m with
      | arr es =>
        rw [getPath] at h
        cases hg : es[i]? with
        | none => rw [hg] at h; exact Option.noConfusion h
        | some c =>
          rw [hg] at h
          dsimp only [Option.bind] at h
          have hlen : i < es.length := by
            by_contra hge
            rw [List.getElem?_eq_none (by omega)] at hg
            exact Option.noConfusion hg
          rw [setPath, hg, getPath]
          rw [List.getElem?_set_self (by simpa using hlen)]
          dsimp only [Option.bind]
          exact ih h
      | null => exact Option.noConfusion h
      | bool b => exact Option.noConfusion h
      | num n => exact Option.noConfusion h
      | str s => exact Option.noConfusion h
      | obj l => exact Option.noConfusion h

/-- Reading a key step on an object. -/
theorem getPath_obj_key (l : List (String × Json)) (k : String) (p : Path) :
    getPath (.obj l) (.key k :: p) = (dget l k).bind (fun c => getPath c p) := rfl

/-- **C10.** After a successful `refresh`, the live tree holds entries at
all five linked paths; any of them that was absent from the input document
was inserted as a fresh copy of its default (so loading a document mutates
it: the result differs from the input); and the cached links alias the
live tree, so a write through the `urls` link (`update_urls`) is
immediately visible when reading the tree at the link's path. -/
theorem c10_refresh_links_live {d m : Json} (h : refresh d = .ok m) :
    ((getPath m pipelinePath).isSome ∧ (getPath m stagesPath).isSome ∧
     (getPath m sourcesPath).isSome ∧ (getPath m filesPath).isSome ∧
     (getPath m urlsPath).isSome) ∧
    (getPath d pipelinePath = none →
      getPath m pipelinePath = some (.obj [("stages", .arr [])]) ∧ m ≠ d) ∧
    (getPath d sourcesPath = none →
      getPath m sourcesPath =
        some (.obj [("org.osbuild.files", .obj [("urls", .obj [])])]) ∧ m ≠ d) ∧
    (∀ (urls : List (String × Json)) (u0 : List (String × Json)),
      getPath m urlsPath = some (.obj u0) →
      update_urls m urls = .ok (setPath m urlsPath (.obj (dupdate u0 urls))) ∧
      getPath (setPath m urlsPath (.obj (dupdate u0 urls))) urlsPath =
        some (.obj (dupdate u0 urls))) := by
  obtain ⟨dl, pl0, sl0, fl0, lv, hd, hg2, hg4, hgf, hm, hlv⟩ := refresh_elim h
  have hPip : getPath m pipelinePath =
      some (.obj (enterOne pl0 "stages" (.arr []))) := by
    rw [hm, pipelinePath, getPath_obj_key,
      dget_dset_ne (by decide), dget_enterOne_ne (by decide), dget_dset_self]
    rfl
  have hSrcEq : getPath m sourcesPath =
      some (.obj (dset (enterOne sl0 "org.osbuild.files" (.obj []))
        "org.osbuild.files" (.obj (enterOne fl0 "urls" (.obj []))))) := by
    rw [hm, sourcesPath, getPath_obj_key, dget_dset_self]
    rfl
  have hFiles : getPath m filesPath =
      some (.obj (enterOne fl0 "urls" (.obj []))) := by
    rw [hm, filesPath, getPath_obj_key, dget_dset_self]
    dsimp only [Option.bind]
    rw [getPath_obj_key, dget_dset_self]
    rfl
  have hStages : getPath m stagesPath = dget (enterOne pl0 "stages" (.arr [])) "stages" := by
    rw [hm, stagesPath, getPath_obj_key,
      dget_dset_ne (by decide), dget_enterOne_ne (by decide), dget_dset_self]
    dsimp only [Option.bind]
    rw [getPath_obj_key]
    cases hx : dget (enterOne pl0 "stages" (.arr [])) "stages" with
    | none => rfl
    | some st =>
      dsimp only [Option.bind]
      exact getPath_nil st
  have hUrls : getPath m urlsPath = dget (enterOne fl0 "urls" (.obj [])) "urls" := by
    rw [hm, urlsPath, getPath_obj_key, dget_dset_self]
    dsimp only [Option.bind]
    rw [getPath_obj_key, dget_dset_self]
    dsimp only [Option.bind]
    rw [getPath_obj_key]
    cases hx : dget (enterOne fl0 "urls" (.obj [])) "urls" with
    | none => rfl
    | some u =>
      dsimp only [Option.bind]
      exact getPath_nil u
  refine ⟨⟨?_, ?_, ?_, ?_, ?_⟩, ?_, ?_, ?_⟩
  · rw [hPip]; rfl
  · rw [hStages]; exact dget_enterOne_isSome pl0 "stages" (.arr [])
  · rw [hSrcEq]; rfl
  · rw [hFiles]; rfl
  · rw [hUrls]; exact dget_enterOne_isSome fl0 "urls" (.obj [])
  · intro hnone
    rw [hd, pipelinePath, getPath_obj_key] at hnone
    have hdl : dget dl "pipeline" = none := by
      cases hx : dget dl "pipeline" with
      | none => rfl
      | some c =>
        rw [hx] at hnone
        dsimp only [Option.bind] at hnone
        rw [getPath_nil] at hnone
        exact Option.noConfusion hnone
    have hpl0 : pl0 = [] := by
      rw [dget_enterOne_of_none hdl] at hg2
      injection hg2 with hg2
      injection hg2 with hg2
      exact hg2.symm
    subst hpl0
    refine ⟨by rw [hPip]; rfl, fun he => ?_⟩
    rw [he, hd, pipelinePath, getPath_obj_key, hdl] at hPip
    exact Option.noConfusion hPip
  · intro hnone
    rw [hd, sourcesPath, getPath_obj_key] at hnone
    have hdl : dget dl "sources" = none := by
      cases hx : dget dl "sources" with
      | none => rfl
      | some c =>
        rw [hx] at hnone
        dsimp only [Option.bind] at hnone
        rw [getPath_nil] at hnone
        exact Option.noConfusion hnone
    have hl2 : dget (dset (enterOne dl "pipeline" (.obj [])) "pipeline"
        (.obj (enterOne pl0 "stages" (.arr [])))) "sources" = none := by
      rw [dget_dset_ne (by decide), dget_enterOne_ne (by decide)]
      exact hdl
    have hsl0 : sl0 = [] := by
      rw [dget_enterOne_of_none hl2] at hg4
      injection hg4 with hg4
      injection hg4 with hg4
      exact hg4.symm
    subst hsl0
    have hfl0 : fl0 = [] := by
      have : dget (enterOne ([] : List (String × Json)) "org.osbuild.files"
          (.obj [])) "org.osbuild.files" = some (.obj []) := by decide
      rw [this] at hgf
      injection hgf with hgf
      injection hgf with hgf
      exact hgf.symm
    subst hfl0
    refine ⟨by rw [hSrcEq]; rfl, fun he => ?_⟩
    rw [he, hd, sourcesPath, getPath_obj_key, hdl] at hSrcEq
    exact Option.noConfusion hSrcEq
  · intro urls u0 hu
    constructor
    · rw [update_urls, hu]
    · exact getPath_setPath_self hu

/-- **C10 witness:** loading the empty document. -/
theorem c10_witness :
    (((getPath emptyLoaded pipelinePath).isSome ∧
      (getPath emptyLoaded stagesPath).isSome ∧
      (getPath emptyLoaded sourcesPath).isSome ∧
      (getPath emptyLoaded filesPath).isSome ∧
      (getPath emptyLoaded urlsPath).isSome) ∧
     (getPath (Json.obj []) pipelinePath = none →
       getPath emptyLoaded pipelinePath = some (.obj [("stages", .arr [])]) ∧
       emptyLoaded ≠ .obj []) ∧
     (getPath (Json.obj []) sourcesPath = none →
       getPath emptyLoaded sourcesPath =
         some (.obj [("org.osbuild.files", .obj [("urls", .obj [])])]) ∧
       emptyLoaded ≠ .obj []) ∧
     (∀ (urls : List (String × Json)) (u0 : List (String × Json)),
       getPath emptyLoaded urlsPath = some (.obj u0) →
       update_urls emptyLoaded urls =
         .ok (setPath emptyLoaded urlsPath (.obj (dupdate u0 urls))) ∧
       getPath (setPath emptyLoaded urlsPath (.obj (dupdate u0 urls))) urlsPath =
         some (.obj (dupdate u0 urls)))) :=
  c10_refresh_links_live (by decide)

/-- Deleting an absent name is a no-op. -/
theorem sdel_of_sget_none {dir : Store} {k : String} (h : sget dir k = none) :
    sdel dir k = dir := by
  induction dir with
  | nil => rfl
  | cons e t ih =>
    rw [sget] at h
    rw [sdel]
    by_cases he : e.1 = k
    · simp [he] at h
    · rcases e with ⟨n, c⟩
      simp only at he
      simp [he] at h ⊢
      exact ih h

/-- A freshly linked entry is found when its name was absent before. -/
theorem sget_append_of_none {dir : Store} {k : String} {c : ByteSeq}
    (h : sget dir k = none) : sget (dir ++ [(k, c)]) k = some c := by
  induction dir with
  | nil => simp [sget]
  | cons e t ih =>
    rw [sget] at h
    by_cases he : e.1 = k
    · simp [he] at h
    · rcases e with ⟨n, c'⟩
      simp only at he
      simp [he] at h
      simpa [sget, he] using ih h

/-- A name not among a directory's names is not found. -/
theorem sget_of_not_mem {t : Store} {k : String} (h : k ∉ t.map Prod.fst) :
    sget t k = none := by
  induction t with
  | nil => rfl
  | cons e t2 ih =>
    simp only [List.map_cons, List.mem_cons, not_or] at h
    rw [sget]
    rcases e with ⟨n, c⟩
    simp only
    rw [if_neg (fun he => h.1 he.symm)]
    exact ih h.2

/-- After unlinking, a name is absent (directories hold each name once). -/
theorem sget_sdel_self {dir : Store} {k : String}
    (h : (dir.map Prod.fst).Nodup) : sget (sdel dir k) k = none := by
  induction dir with
  | nil => rfl
  | cons e t ih =>
    rcases e with ⟨n, c⟩
    simp only [List.map_cons, List.nodup_cons] at h
    rw [sdel]
    by_cases he : n = k
    · subst he
      simp only [if_pos rfl]
      exact sget_of_not_mem h.1
    · simp only [he, if_false]
      rw [sget]
      simp only [he, if_false]
      exact ih h.2

/-- Unlink-then-link makes the entry the one found under its name. -/
theorem sget_sdel_append {dir : Store} {k : String} {c : ByteSeq}
    (h : (dir.map Prod.fst).Nodup) : sget (sdel dir k ++ [(k, c)]) k = some c :=
  sget_append_of_none (sget_sdel_self h)

/-- **C1.** The claim says a document with a key outside the recognized set
at some level is rejected with a schema-violation error by load/refresh.
The code computes the `dict_contains_only` checks but discards their
results (mpp.py:143-150), so `refresh` accepts this document - whose root
key `bogus` is outside the recognized root set - and returns it with the
link defaults inserted, raising nothing. -/
theorem c1_refresh_accepts_unrecognized_key :
    refresh c1doc = .ok c1refreshed := by decide

/-- **C2.** The claim says a pipeline-base import conflicts when both
the importer and the imported document define a *nested* build pipeline,
and that an importer without one adopts the import's.  The code instead
consults `imp.data.get("build")` - the imported document's root, where
the schema never places a build pipeline (mpp.py:312, 319-320).
Evaluated on a document whose nested `pipeline.build` is present: with a
conflicting importer the pass succeeds (no conflict error) and keeps the
own build of the importer; with a build-less importer the pass succeeds
without adopting anything. -/
theorem c2_base_import_ignores_nested_build :
    refresh c2importerWithBuild = .ok c2loadedWithBuild ∧
    passBase c2fs c2loadedWithBuild = .ok (c2resultWithBuild, true) ∧
    getPath c2resultWithBuild [.key "pipeline", .key "build"] =
      getPath c2loadedWithBuild [.key "pipeline", .key "build"] ∧
    refresh c2importerNoBuild = .ok c2loadedNoBuild ∧
    passBase c2fs c2loadedNoBuild = .ok (c2resultNoBuild, true) ∧
    getPath c2resultNoBuild [.key "pipeline", .key "build"] = none := by
  refine ⟨by decide, by decide, by decide, by decide, by decide, by decide⟩

/-- **C3 (counterexample).** On the claim's input manifest - whose
`mpp-depsolve` annotation carries no `baseurl` - the engine does not
produce the claimed output: `MppDepsolve._process_one` reads
`todo_mpp["baseurl"]` (mpp.py:199) and dies with a `KeyError`. -/
theorem c3_counterexample_missing_baseurl :
    mppEngine noFs c3rv 3 (c3doc c3mpp) = .error .keyError := by decide

/-- **C3 (amended).** With `"baseurl": "https://example/repo"` added to the
annotation - the place the code reads the base URL from - the engine run
against the claim's resolver stub converges (for any surplus fuel) to the
claimed output manifest: the stage's options become
`{"packages": ["sha256:cc"]}` (the mark removed) and the sources map
`sha256:cc` to `https://example/repo/Packages/bash.rpm`. -/
theorem c3_amended_scenario (n : Nat) :
    refresh (c3doc c3mppAmended) = .ok c3loaded ∧
    runFuel noFs c3rv (n + 2) c3loaded = .ok (some c3final) ∧
    getPath c3final [.key "pipeline", .key "stages", .idx 0, .key "options"] =
      some (.obj [("packages", .arr [.str "sha256:cc"])]) ∧
    (linksOf c3final).sources = .obj [("org.osbuild.files", .obj [("urls",
      .obj [("sha256:cc", .str "https://example/repo/Packages/bash.rpm")])])] := by
  refine ⟨by decide, ?_, by decide, by decide⟩
  have h1 : roundOnce noFs c3rv c3loaded = .ok (c3final, true) := by decide
  have h2 : roundOnce noFs c3rv c3final = .ok (c3final, false) := by decide
  show runFuel noFs c3rv (n + 1 + 1) c3loaded = .ok (some c3final)
  rw [runFuel, h1]
  show runFuel noFs c3rv (n + 1) c3final = .ok (some c3final)
  rw [runFuel, h2]

/-- A pass that reports no progress collected nothing and returned its
input manifest unchanged (the `process` methods mutate only collected
nodes). -/
theorem runPass_noprogress {collect : Json → Except Err (List Path)}
    {pOne : Json → Path → Except Err Json} {m m' : Json}
    (h : runPass collect pOne m = .ok (m', false)) : m' = m := by
  rw [runPass] at h
  cases hc : collect m with
  | error e => rw [hc] at h; exact absurd h (by simp)
  | ok todos =>
    rw [hc] at h
    dsimp only at h
    cases hf : foldProcess pOne m todos with
    | error e => rw [hf] at h; exact absurd h (by simp)
    | ok mm =>
      rw [hf] at h
      dsimp only at h
      injection h with h
      injection h with h1 h2
      have : todos = [] := by
        cases todos with
        | nil => rfl
        | cons a b => simp [List.isEmpty] at h2
      subst this
      rw [foldProcess] at hf
      injection hf with hf
      rw [← h1, ← hf]

/-- A driver step that reports no progress passed its pass result through
unchanged (no refresh was run). -/
theorem passStep_noprogress {res : Except Err (Json × Bool)} {m' : Json}
    (h : passStep res = .ok (m', false)) : res = .ok (m', false) := by
  rw [passStep.eq_def] at h
  cases res with
  | error e => exact absurd h (by simp)
  | ok r =>
    rcases r with ⟨m1, p1⟩
    dsimp only at h
    cases p1 with
    | true =>
      exfalso
      cases hrm : refresh m1 with
      | error e => rw [hrm] at h; simp at h
      | ok m1r => rw [hrm] at h; simp at h
    | false =>
      rw [if_neg (by simp)] at h
      dsimp only at h
      injection h with h
      injection h with h1 _
      rw [h1]

/-- A driver round that reports no progress left the manifest untouched:
all three passes collected nothing, so nothing was mutated and no refresh
was run. -/
theorem roundOnce_noprogress {fs : Fs} {rv : Resolver} {m m' : Json}
    (h : roundOnce fs rv m = .ok (m', false)) : m' = m := by
  rw [roundOnce] at h
  cases hs1 : passStep (passDepsolve rv m) with
  | error e => rw [hs1] at h; exact absurd h (by simp)
  | ok r1 =>
    rcases r1 with ⟨m1, p1⟩
    rw [hs1] at h
    dsimp only at h
    cases hs2 : passStep (passBase fs m1) with
    | error e => rw [hs2] at h; exact absurd h (by simp)
    | ok r2 =>
      rcases r2 with ⟨m2, p2⟩
      rw [hs2] at h
      dsimp only at h
      cases hs3 : passStep (passImport fs m2) with
      | error e => rw [hs3] at h; exact absurd h (by simp)
      | ok r3 =>
        rcases r3 with ⟨m3, p3⟩
        rw [hs3] at h
        dsimp only at h
        injection h with h
        injection h with hm hp
        have hp3 : p1 = false ∧ p2 = false ∧ p3 = false := by
          cases p1 <;> cases p2 <;> cases p3 <;> simp_all
        rcases hp3 with ⟨e1, e2, e3⟩
        subst e1; subst e2; subst e3
        have q1 : passDepsolve rv m = .ok (m1, false) := passStep_noprogress hs1
        have q2 : passBase fs m1 = .ok (m2, false) := passStep_noprogress hs2
        have q3 : passImport fs m2 = .ok (m3, false) := passStep_noprogress hs3
        rw [passDepsolve] at q1
        rw [passBase] at q2
        rw [passImport] at q3
        have e1 := runPass_noprogress q1
        have e2 := runPass_noprogress q2
        have e3 := runPass_noprogress q3
        rw [← hm, e3, e2, e1]

/-- **C4.** On an already-converged manifest - one round reports no
progress - the driver performs no mutation: the round returns the manifest
itself, running the whole driver loop again (any fuel) converges
immediately to the very same manifest, and serialization is byte-identical
to the first run's. -/
theorem c4_converged_round_is_identity (fs : Fs) (rv : Resolver) (m m' : Json)
    (h : roundOnce fs rv m = .ok (m', false)) :
    m' = m ∧ (∀ n, runFuel fs rv (n + 1) m = .ok (some m)) ∧
    to_stream m' = to_stream m := by
  have hm := roundOnce_noprogress h
  subst hm
  refine ⟨rfl, fun n => ?_, rfl⟩
  rw [runFuel, h]

/-- **C4 witness:** the freshly loaded empty manifest is converged, and the
driver run on it returns it unchanged. -/
theorem c4_witness :
    emptyLoaded = emptyLoaded ∧
    (∀ n, runFuel noFs rvEmpty (n + 1) emptyLoaded = .ok (some emptyLoaded)) ∧
    to_stream emptyLoaded = to_stream emptyLoaded :=
  c4_converged_round_is_identity noFs rvEmpty emptyLoaded emptyLoaded (by decide)

/-- **C6.** The store's publish protocol: a failed writer (interrupted
download, failed mpp subprocess) or a digest mismatch leaves the store
directory exactly as it was - the anonymous `O_TMPFILE` stream is simply
dropped and no name is ever created; only on success is the fully written
content linked under the digest-derived name, after unlinking any prior
entry of that name.  Stated for every digest function, directory content,
expected address and writer run. -/
theorem c6_publish_atomicity (hex : ByteSeq → String) (dir : Store) (cks : String)
    (w : WriterRun) (byTag : TagDir) (path : String) :
    (w.ok = false → sget dir cks = none →
      prefetchOne hex dir cks w = (dir, some .downloadError)) ∧
    (w.ok = true → sget dir cks = none →
      "sha256:" ++ hex w.chunks.flatten ≠ cks →
      prefetchOne hex dir cks w = (dir, some .checksumMismatch)) ∧
    (w.ok = true → sget dir cks = none →
      "sha256:" ++ hex w.chunks.flatten = cks →
      prefetchOne hex dir cks w = (sdel dir cks ++ [(cks, w.chunks.flatten)], none)) ∧
    (w.ok = false →
      preprocessOne hex dir byTag path w = (dir, byTag, some .mppFailed)) ∧
    (w.ok = true →
      preprocessOne hex dir byTag path w =
        (sdel dir ("sha256-" ++ hex w.chunks.flatten) ++
          [("sha256-" ++ hex w.chunks.flatten, w.chunks.flatten)],
         tset byTag path ("sha256-" ++ hex w.chunks.flatten), none)) := by
  refine ⟨fun hw hc => ?_, fun hw hc hd => ?_, fun hw hc hd => ?_, fun hw => ?_,
    fun hw => ?_⟩
  · simp [prefetchOne, open_tmpfile, hw, hc]
  · simp [prefetchOne, open_tmpfile, hw, hc, hd]
  · simp [prefetchOne, open_tmpfile, hw, hc, hd]
  · simp [preprocessOne, open_tmpfile, hw]
  · simp [preprocessOne, open_tmpfile, hw]

/-- **C6 witness:** a failed download into an empty store leaves it empty
with the error reported. -/
theorem c6_witness :
    prefetchOne hexConst [] "sha256:00" ⟨[[1]], false⟩ = ([], some .downloadError) :=
  (c6_publish_atomicity hexConst [] "sha256:00" ⟨[[1]], false⟩ [] "p").1 rfl rfl

/-- **C7.** Prefetch cache lookup: when a readable file already exists
under the expected address, it is re-hashed; the pass returns with the
store untouched when the digest still matches, and fails with the
checksum-mismatch error (`"Wrong checksum"`) when it does not.  The result
does not depend on the download writer at all - no download is consumed on
a cache hit. -/
theorem c7_cache_hit_verification (hex : ByteSeq → String) (dir : Store)
    (cks : String) (w : WriterRun) (cached : ByteSeq)
    (h : sget dir cks = some cached) :
    prefetchOne hex dir cks w =
      (dir, if "sha256:" ++ hex cached = cks then none else some .wrongChecksum) := by
  rw [prefetchOne, h]
  dsimp only
  by_cases hc : "sha256:" ++ hex cached = cks
  · simp [hc]
  · simp [hc]

/-- **C7 witness:** a cache hit whose content still hashes to its name is
used unchanged (here with a writer that would fail if it were consumed). -/
theorem c7_witness :
    prefetchOne hexConst [("sha256:00", [5])] "sha256:00" ⟨[], false⟩ =
      ([("sha256:00", [5])], none) := by
  have h := c7_cache_hit_verification hexConst [("sha256:00", [5])] "sha256:00"
    ⟨[], false⟩ [5] (by rfl)
  simpa using h

/-- **C8 (counterexample).** The claim says every published store name is
`"<algorithm-name>:<lowercase-hex>"`.  The preprocess command publishes
into `by-checksum` under `"sha256-" + hexdigest` (mdb.py:243) - a hyphen,
not a colon - so the published name differs from the claimed form at its
seventh character for every digest value. -/
theorem c8_counterexample_hyphen_name :
    preprocessOne hexConst [] [] "m.json" ⟨[[1]], true⟩ =
      ([("sha256-00", [1])], [("m.json", "sha256-00")], none) ∧
    "sha256-00" ≠ "sha256:" ++ hexConst [1] := by
  constructor
  · simp [preprocessOne, open_tmpfile, hexConst, sdel, tset]
  · decide

/-- **C8 (amended).** Published store names carry the fixed 256-bit
algorithm's name and the digest of the content, but in two spellings:
prefetch cache entries are published under the manifest's address, which
success forces to equal `"sha256:" ++ hex content` (colon form), while
preprocess `by-checksum` entries are published under
`"sha256-" ++ hex content` (hyphen form). -/
theorem c8_address_format (hex : ByteSeq → String) (dir : Store) (cks : String)
    (w : WriterRun) (byTag : TagDir) (path : String)
    (hnd : (dir.map Prod.fst).Nodup) :
    (w.ok = true → sget dir cks = none → (prefetchOne hex dir cks w).2 = none →
      cks = "sha256:" ++ hex w.chunks.flatten ∧
      sget (prefetchOne hex dir cks w).1 cks = some w.chunks.flatten) ∧
    (w.ok = true →
      (preprocessOne hex dir byTag path w).2.2 = none ∧
      sget (preprocessOne hex dir byTag path w).1 ("sha256-" ++ hex w.chunks.flatten) =
        some w.chunks.flatten) := by
  constructor
  · intro hw hc
    rw [prefetchOne, hc]
    by_cases hd : "sha256:" ++ hex w.chunks.flatten = cks
    · intro _
      refine ⟨hd.symm, ?_⟩
      simp only [open_tmpfile, hw, hd, if_true]
      exact sget_sdel_append hnd
    · simp [open_tmpfile, hw, hd]
  · intro hw
    constructor
    · simp [preprocessOne, open_tmpfile, hw]
    · simp only [preprocessOne, open_tmpfile, hw, if_true]
      exact sget_sdel_append hnd

/-- **C8 witness:** a successful preprocess publish of content `[1]` into an
empty store lands under the hyphen-form name with the full content. -/
theorem c8_witness :
    (preprocessOne hexConst [] [] "m.json" ⟨[[1]], true⟩).2.2 = none ∧
    sget (preprocessOne hexConst [] [] "m.json" ⟨[[1]], true⟩).1
      ("sha256-" ++ hexConst [1]) = some [1] := by
  have h := (c8_address_format hexConst [] "x" ⟨[[1]], true⟩ [] "m.json"
    (by simp)).2 rfl
  simpa using h

/-- `dget` at the head entry. -/
theorem dget_cons_eq {k : String} {v : Json} {t : List (String × Json)} :
    dget ((k, v) :: t) k = some v := by rw [dget, if_pos rfl]

/-- `dget` skips a mismatching head entry. -/
theorem dget_cons_ne {k k' : String} {v : Json} {t : List (String × Json)}
    (h : k' ≠ k) : dget ((k', v) :: t) k = dget t k := by rw [dget, if_neg h]

/-- `dset` at the head entry. -/
theorem dset_cons_eq {k : String} {v w : Json} {t : List (String × Json)} :
    dset ((k, v) :: t) k w = (k, w) :: t := by rw [dset, if_pos rfl]

/-- `dset` skips a mismatching head entry. -/
theorem dset_cons_ne {k k' : String} {v w : Json} {t : List (String × Json)}
    (h : k' ≠ k) : dset ((k', v) :: t) k w = (k', v) :: dset t k w := by
  rw [dset, if_neg h]

/-- Writing a key step on an object. -/
theorem setPath_obj_key (l : List (String × Json)) (k : String) (p : Path)
    (v : Json) :
    setPath (.obj l) (.key k :: p) v =
      (match dget l k with
      | some c => .obj (dset l k (setPath c p v))
      | none => .obj l) := rfl

/-- C9: walking a nest chain collects one level per wrapper plus the
terminal import-marked node. -/
theorem c9_levels_chain (j : Nat) (t : String) : ∀ pre : Path,
    levelsFrom pre (c9nest j (annImport t)) = .ok (c9chain pre j t) := by
  induction j with
  | zero =>
    intro pre
    rw [levelsFrom_eq]
    simp [c9nest, annImport, c9chain, Json.truthy, dget]
  | succ j ih =>
    intro pre
    rw [levelsFrom_eq]
    simp only [c9nest, Json.truthy, dget, List.isEmpty]
    norm_num [dget]
    rw [ih]
    simp [c9chain, c9nest]

/-- C9: the depsolve pass collects nothing along a nest chain. -/
theorem c9_depsolve_go (j : Nat) (t : String) : ∀ pre : Path,
    collectDepsolve.go (c9chain pre j t) = .ok [] := by
  induction j with
  | zero =>
    intro pre
    simp [c9chain, collectDepsolve.go, depsolveLevel, objEntries, annImport,
      dget, depsolveStages]
  | succ j ih =>
    intro pre
    simp only [c9chain, collectDepsolve.go]
    rw [ih]
    simp [depsolveLevel, objEntries, c9nest, dget, depsolveStages]

/-- C9: the base-import pass collects nothing along a nest chain. -/
theorem c9_base_go (j : Nat) (t : String) : ∀ pre : Path,
    collectBase.go (c9chain pre j t) = .ok [] := by
  induction j with
  | zero =>
    intro pre
    simp [c9chain, collectBase.go, jsonContains, objEntries, annImport, dget, dhaskey]
  | succ j ih =>
    intro pre
    simp only [c9chain, collectBase.go]
    rw [ih]
    simp [jsonContains, objEntries, c9nest, dget, dhaskey]

/-- C9: the fragment-import pass collects exactly the terminal node of the
chain. -/
theorem c9_import_go (j : Nat) (t : String) : ∀ pre : Path,
    collectImport.go (c9chain pre j t) = .ok [pre ++ c9pbs j] := by
  induction j with
  | zero =>
    intro pre
    simp [c9chain, collectImport.go, objEntries, annImport, dhaskey, dget, c9pbs]
  | succ j ih =>
    intro pre
    simp only [c9chain, collectImport.go]
    rw [ih]
    simp [objEntries, c9nest, dhaskey, dget, c9pbs, List.append_assoc]

/-- C9: reading through a nest chain reaches the terminal node. -/
theorem c9_getPath_nest (j : Nat) (t : String) (p : Path) :
    getPath (c9nest j (annImport t)) (c9pbs j ++ p) = getPath (annImport t) p := by
  induction j with
  | zero => rw [c9pbs, List.nil_append, c9nest]
  | succ j ih =>
    rw [c9pbs, c9nest]
    simp only [List.append_assoc, List.cons_append, List.nil_append]
    rw [getPath_obj_key, dget_cons_eq]
    dsimp only [Option.bind]
    rw [getPath_obj_key, dget_cons_eq]
    dsimp only [Option.bind]
    exact ih

/-- C9: writing through a nest chain replaces the terminal node. -/
theorem c9_setPath_nest (j : Nat) (t : String) (v : Json) :
    setPath (c9nest j (annImport t)) (c9pbs j) v = c9nest j v := by
  induction j with
  | zero => rw [c9pbs, c9nest, setPath_nil, c9nest]
  | succ j ih =>
    rw [c9pbs, c9nest]
    simp only [List.cons_append, List.nil_append]
    rw [setPath_obj_key, dget_cons_eq]
    dsimp only
    rw [setPath_obj_key, dget_cons_eq]
    dsimp only
    rw [ih, dset_cons_eq, dset_cons_eq]
    conv_rhs => rw [c9nest]

/-- C9: nesting one more wrapper inside equals one more wrapper outside. -/
theorem c9nest_c9nest (j : Nat) (x : Json) :
    c9nest j (c9nest 1 x) = c9nest (j + 1) x := by
  induction j with
  | zero => rw [c9nest]
  | succ j ih =>
    rw [c9nest, ih]
    conv_rhs => rw [c9nest]

/-- A manifest on which all five link walks are no-ops and whose levels
walk succeeds is a fixed point of `refresh`. -/
theorem refresh_id_of {m : Json}
    (h1 : enterPath m ["pipeline"] (.obj []) = .ok m)
    (h2 : enterPath m ["pipeline", "stages"] (.arr []) = .ok m)
    (h3 : enterPath m ["sources"] (.obj []) = .ok m)
    (h4 : enterPath m ["sources", "org.osbuild.files"] (.obj []) = .ok m)
    (h5 : enterPath m ["sources", "org.osbuild.files", "urls"] (.obj []) = .ok m)
    (h6 : ∃ lv, levelsFrom [] m = .ok lv) :
    refresh m = .ok m := by
  obtain ⟨lv, hlv⟩ := h6
  cases m with
  | obj l =>
    rw [refresh, h1]
    dsimp only
    rw [h2]
    dsimp only
    rw [h3]
    dsimp only
    rw [h4]
    dsimp only
    rw [h5]
    dsimp only
    rw [hlv]
  | null => exact Except.noConfusion h1
  | bool b => exact Except.noConfusion h1
  | num n => exact Except.noConfusion h1
  | str s => exact Except.noConfusion h1
  | arr es => exact Except.noConfusion h1

/-- C9: the levels of the looping manifest are the root plus the chain. -/
theorem c9_levels_root (k : Nat) :
    levelsFrom [] (c9state k) =
      .ok (([], c9state k) ::
        c9chain [.key "pipeline", .key "build"] k (c9target k)) := by
  rw [c9state, levelsFrom_eq]
  simp only [Json.truthy, List.isEmpty, dget_cons_eq, dget_cons_ne (by decide :
    ("pipeline" : String) ≠ "build")]
  norm_num [dget_cons_eq]
  rw [c9_levels_chain]

/-- C9: the looping manifest is a fixed point of `refresh`. -/
theorem c9_refresh_state (k : Nat) : refresh (c9state k) = .ok (c9state k) := by
  apply refresh_id_of
  · rw [c9state]
    simp [enterPath, enterOne, dhaskey, dget]
  · rw [c9state]
    simp [enterPath, enterOne, dhaskey, dget, dset]
  · rw [c9state]
    simp [enterPath, enterOne, dhaskey, dget]
  · rw [c9state]
    simp [enterPath, enterOne, dhaskey, dget, dset]
  · rw [c9state]
    simp [enterPath, enterOne, dhaskey, dget, dset]
  · exact ⟨_, c9_levels_root k⟩

/-- C9: the levels of a freshly loaded import file. -/
theorem c9_levels_loaded (t : String) :
    levelsFrom [] (c9loaded t) =
      .ok [([], c9loaded t),
        ([.key "pipeline", .key "build"], annImport t)] := by
  rw [c9loaded, levelsFrom_eq]
  simp only [Json.truthy, List.isEmpty, dget_cons_eq]
  norm_num [dget_cons_eq]
  have := c9_levels_chain 0 t [.key "pipeline", .key "build"]
  rw [c9nest] at this
  rw [this, c9chain]

/-- C9: loading either import file inserts only the missing defaults. -/
theorem c9_refresh_loaded (t : String) :
    refresh (c9file t) = .ok (c9loaded t) := by
  rw [c9file, refresh]
  have e1 : enterPath (.obj [("pipeline", .obj [("build", annImport t)])])
      ["pipeline"] (.obj []) = .ok (.obj [("pipeline", .obj [("build", annImport t)])]) := by
    simp [enterPath, enterOne, dhaskey, dget]
  rw [e1]
  dsimp only
  have e2 : enterPath (.obj [("pipeline", .obj [("build", annImport t)])])
      ["pipeline", "stages"] (.arr []) =
      .ok (.obj [("pipeline", .obj [("build", annImport t), ("stages", .arr [])])]) := by
    simp [enterPath, enterOne, dhaskey, dget, dset]
  rw [e2]
  dsimp only
  have e3 : enterPath (.obj [("pipeline", .obj [("build", annImport t), ("stages", .arr [])])])
      ["sources"] (.obj []) =
      .ok (.obj [("pipeline", .obj [("build", annImport t), ("stages", .arr [])]),
        ("sources", .obj [])]) := by
    simp [enterPath, enterOne, dhaskey, dget, dset]
  rw [e3]
  dsimp only
  have e4 : enterPath (.obj [("pipeline", .obj [("build", annImport t), ("stages", .arr [])]),
      ("sources", .obj [])]) ["sources", "org.osbuild.files"] (.obj []) =
      .ok (.obj [("pipeline", .obj [("build", annImport t), ("stages", .arr [])]),
        ("sources", .obj [("org.osbuild.files", .obj [])])]) := by
    simp [enterPath, enterOne, dhaskey, dget, dset]
  rw [e4]
  dsimp only
  have e5 : enterPath (.obj [("pipeline", .obj [("build", annImport t), ("stages", .arr [])]),
      ("sources", .obj [("org.osbuild.files", .obj [])])])
      ["sources", "org.osbuild.files", "urls"] (.obj []) =
      .ok (.obj [("pipeline", .obj [("build", annImport t), ("stages", .arr [])]),
        ("sources", .obj [("org.osbuild.files", .obj [("urls", .obj [])])])]) := by
    simp [enterPath, enterOne, dhaskey, dget, dset]
  rw [e5]
  dsimp only
  have e6 := c9_levels_loaded t
  rw [c9loaded] at e6
  rw [e6]
  rw [c9loaded]

/-- A step over a pass that reported no progress is the identity. -/
theorem passStep_false {m : Json} : passStep (.ok (m, false)) = .ok (m, false) := by
  simp [passStep]

/-- A step over a pass that reported progress refreshes the manifest. -/
theorem passStep_true {m m' : Json} (h : refresh m = .ok m') :
    passStep (.ok (m, true)) = .ok (m', true) := by
  simp [passStep, h]

/-- C9: one fragment-import rewrite on the looping manifest: the
terminal mark is consumed, the imported pipeline is spliced in, and a
fresh mark importing the other file appears one level deeper. -/
theorem c9_import_process (k : Nat) (t t' : String)
    (hT : c9target k = t) (hfs : fs9 t = some (c9file t'))
    (hT' : c9target (k + 1) = t') :
    importProcessOne fs9 (c9state k)
      (.key "pipeline" :: .key "build" :: c9pbs k) = .ok (c9state (k + 1)) := by
  have hget : getPath (c9state k) (.key "pipeline" :: .key "build" :: c9pbs k) =
      some (annImport t) := by
    rw [c9state, getPath_obj_key, dget_cons_eq]
    dsimp only [Option.bind]
    rw [getPath_obj_key, dget_cons_eq]
    dsimp only [Option.bind]
    have hgn := c9_getPath_nest k (c9target k) []
    rw [List.append_nil] at hgn
    rw [hgn, getPath_nil, hT]
  have hidx : indexStr (annImport t) "mpp-pipeline-import" = .ok (.str t) := by
    simp [indexStr, annImport, dget]
  have hsrc : getPath (c9loaded t') sourcesPath =
      some (.obj [("org.osbuild.files", .obj [("urls", .obj [])])]) := by
    rw [c9loaded]
    simp [sourcesPath, getPath_obj_key, dget, getPath_nil]
  have hg0 : getPath (c9state k) urlsPath = some (.obj []) := by
    rw [c9state]
    simp [urlsPath, getPath_obj_key, dget, getPath_nil]
  have hsp0 : setPath (c9state k) urlsPath (.obj []) = c9state k := by
    rw [c9state]
    simp [urlsPath, setPath_obj_key, dget, dset, setPath_nil]
  have hupd : update_urls (c9state k) [] = .ok (c9state k) := by
    rw [update_urls, hg0]
    dsimp only [dupdate, List.foldl]
    rw [hsp0]
  have hus : update_sources (c9state k)
      [("org.osbuild.files", .obj [("urls", .obj [])])] = .ok (c9state k) := by
    rw [update_sources]
    rw [if_pos rfl]
    have hco : dict_contains_only [("urls", Json.obj [])] ["urls"] = true := by decide
    rw [hco]
    have hhk : dhaskey [("urls", Json.obj [])] "urls" = true := by decide
    rw [if_pos rfl, hhk]
    rw [dget_cons_eq]
    dsimp only [Option.getD, objEntries]
    rw [hupd, if_pos rfl]
    dsimp only
    rw [update_sources]
  have hpip : getPath (c9loaded t') pipelinePath =
      some (.obj [("build", annImport t'), ("stages", .arr [])]) := by
    rw [c9loaded]
    simp [pipelinePath, getPath_obj_key, dget, getPath_nil]
  have hset : setPath (c9state k) (.key "pipeline" :: .key "build" :: c9pbs k)
      (.obj [("pipeline", .obj [("build", annImport t'), ("stages", .arr [])])]) =
      c9state (k + 1) := by
    rw [c9state, setPath_obj_key, dget_cons_eq]
    dsimp only
    rw [setPath_obj_key, dget_cons_eq]
    dsimp only
    rw [hT, c9_setPath_nest k t
      (.obj [("pipeline", .obj [("build", annImport t'), ("stages", .arr [])])])]
    have hn1 : (Json.obj [("pipeline", .obj [("build", annImport t'),
        ("stages", .arr [])])]) = c9nest 1 (annImport t') := by
      rw [c9nest, c9nest]
    rw [hn1, c9nest_c9nest, dset_cons_eq, dset_cons_eq]
    conv_rhs => rw [c9state]
    rw [hT']
  rw [importProcessOne, hget]
  dsimp only
  rw [hidx]
  dsimp only
  rw [hfs]
  dsimp only
  rw [c9_refresh_loaded t']
  dsimp only
  rw [hsrc]
  dsimp only [Option.getD, objEntries]
  rw [hus]
  dsimp only
  rw [hpip]
  dsimp only [Option.getD, objEntries, annImport]
  rw [dset_cons_ne (by decide), ddel]
  rw [if_pos rfl]
  dsimp only [dset]
  exact congrArg Except.ok hset

/-- C9: the depsolve pass finds nothing on the looping manifest. -/
theorem c9_depsolve_root (k : Nat) : collectDepsolve (c9state k) = .ok [] := by
  have hdl : depsolveLevel ([], c9state k) = .ok [] := by
    rw [c9state]
    simp [depsolveLevel, objEntries, dget, depsolveStages]
  rw [collectDepsolve, c9_levels_root]
  dsimp only
  rw [collectDepsolve.go, hdl]
  dsimp only
  rw [c9_depsolve_go]
  rfl

/-- C9: the base-import pass finds nothing on the looping manifest. -/
theorem c9_base_root (k : Nat) : collectBase (c9state k) = .ok [] := by
  have hbl : jsonContains ((dget (objEntries (c9state k)) "pipeline").getD (.obj []))
      "mpp-pipeline-base" = some false := by
    rw [c9state]
    simp [objEntries, dget, jsonContains, dhaskey]
  rw [collectBase, c9_levels_root]
  dsimp only
  rw [collectBase.go, hbl]
  dsimp only
  exact c9_base_go k (c9target k) _

/-- C9: the fragment-import pass collects exactly the terminal import mark
of the looping manifest. -/
theorem c9_import_root (k : Nat) : collectImport (c9state k) =
    .ok [.key "pipeline" :: .key "build" :: c9pbs k] := by
  have hil : dhaskey (objEntries (c9state k)) "mpp-pipeline-import" = false := by
    rw [c9state]
    simp [objEntries, dhaskey, dget]
  rw [collectImport, c9_levels_root]
  dsimp only
  rw [collectImport.go, hil]
  rw [if_neg (by decide)]
  rw [c9_import_go]
  rfl

/-- C9: the alternating import target: each round loads the other file. -/
theorem c9_fs_target (k : Nat) :
    fs9 (c9target k) = some (c9file (c9target (k + 1))) := by
  by_cases h : k % 2 = 0
  · have h1 : (k + 1) % 2 = 1 := by omega
    rw [c9target, if_pos h, c9target, h1]
    rfl
  · have h1 : (k + 1) % 2 = 0 := by omega
    rw [c9target, if_neg h, c9target, if_pos h1]
    rfl

/-- C9: one full driver round on the looping manifest makes progress and
yields the next, one-level-deeper looping manifest. -/
theorem c9_round (k : Nat) :
    roundOnce fs9 rvEmpty (c9state k) = .ok (c9state (k + 1), true) := by
  have hdep : passDepsolve rvEmpty (c9state k) = .ok (c9state k, false) := by
    rw [passDepsolve, runPass, c9_depsolve_root]
    dsimp only
    rw [foldProcess]
    rfl
  have hbase : passBase fs9 (c9state k) = .ok (c9state k, false) := by
    rw [passBase, runPass, c9_base_root]
    dsimp only
    rw [foldProcess]
    rfl
  have himpP := c9_import_process k (c9target k) (c9target (k + 1)) rfl
    (c9_fs_target k) rfl
  have himp : passImport fs9 (c9state k) = .ok (c9state (k + 1), true) := by
    rw [passImport, runPass, c9_import_root]
    dsimp only
    rw [foldProcess, himpP]
    dsimp only
    rw [foldProcess]
    rfl
  rw [roundOnce, hdep, passStep_false]
  dsimp only
  rw [hbase, passStep_false]
  dsimp only
  rw [himp, passStep_true (c9_refresh_state (k + 1))]
  rfl

/-- C9: from any depth of the looping state, the driver never stops: every
round reports progress, so every fuel bound is exhausted. -/
theorem c9_runFuel (n : Nat) : ∀ k, runFuel fs9 rvEmpty n (c9state k) = .ok none := by
  induction n with
  | zero => intro k; rfl
  | succ n ih =>
    intro k
    rw [runFuel, c9_round]
    dsimp only
    exact ih (k + 1)

/-- C9: there is an input on which the fixed-point driver never
terminates: two manifests whose nested build pipelines import each other
make every round consume one import mark and plant the next one a level
deeper, so for every fuel bound the engine is still mid-loop (`ok none`),
never producing a result and never raising an error. -/
theorem c9_mutual_imports_never_terminate (fuel : Nat) :
    mppEngine fs9 rvEmpty fuel (c9file "b") = .ok none := by
  rw [mppEngine, c9_refresh_loaded]
  dsimp only
  have h0 : c9loaded "b" = c9state 0 := rfl
  rw [h0, c9_runFuel fuel 0]

/-- A list with a successful lookup is nonempty. -/
theorem ne_nil_of_dget {l : List (String × Json)} {k : String} {v : Json}
    (h : dget l k = some v) : l ≠ [] := by
  intro he
  subst he
  exact Option.noConfusion h

/-- A nonempty object is truthy. -/
theorem truthy_obj_of_ne {l : List (String × Json)} (h : l ≠ []) :
    Json.truthy (.obj l) = true := by
  cases l with
  | nil => exact absurd rfl h
  | cons e t => rfl

/-- `dset` never returns the empty list. -/
theorem dset_ne_nil (l : List (String × Json)) (k : String) (v : Json) :
    dset l k v ≠ [] := by
  cases l with
  | nil => intro h; exact List.noConfusion h
  | cons e t =>
    rcases e with ⟨k', v'⟩
    rw [dset]
    split <;> intro h <;> exact List.noConfusion h

/-- A lookup misses exactly when the key is not among the keys. -/
theorem dget_none_iff {l : List (String × Json)} {k : String} :
    dget l k = none ↔ keymem (l.map Prod.fst) k = false := by
  induction l with
  | nil => simp [dget, keymem]
  | cons e t ih =>
    rcases e with ⟨k', v'⟩
    rw [dget, List.map_cons, keymem]
    by_cases he : k' = k
    · simp [he]
    · simp [he, ih]

/-- Setting an existing key keeps the key list. -/
theorem keys_dset_of_some {l : List (String × Json)} {k : String} {w : Json}
    (h : dget l k = some w) (v : Json) :
    (dset l k v).map Prod.fst = l.map Prod.fst := by
  induction l with
  | nil => exact Option.noConfusion h
  | cons e t ih =>
    rcases e with ⟨k', v'⟩
    rw [dget] at h
    rw [dset]
    by_cases he : k' = k
    · rw [if_pos he, List.map_cons, List.map_cons, he]
    · rw [if_neg he] at h
      rw [if_neg he, List.map_cons, List.map_cons, ih h]

/-- Setting an absent key appends the new entry. -/
theorem dset_append_of_none {l : List (String × Json)} {k : String}
    (h : dget l k = none) (v : Json) : dset l k v = l ++ [(k, v)] := by
  induction l with
  | nil => rfl
  | cons e t ih =>
    rcases e with ⟨k', v'⟩
    rw [dget] at h
    by_cases he : k' = k
    · rw [if_pos he] at h
      exact Option.noConfusion h
    · rw [if_neg he] at h
      rw [dset, if_neg he, ih h, List.cons_append]

/-- A found entry is still found after appending. -/
theorem dget_append_left {l l' : List (String × Json)} {k : String} {v : Json}
    (h : dget l k = some v) : dget (l ++ l') k = some v := by
  induction l with
  | nil => exact Option.noConfusion h
  | cons e t ih =>
    rcases e with ⟨k', v'⟩
    rw [dget] at h
    rw [List.cons_append, dget]
    by_cases he : k' = k
    · rw [if_pos he] at h
      rw [if_pos he]
      exact h
    · rw [if_neg he] at h
      rw [if_neg he]
      exact ih h

/-- A missing key defers the lookup to the appended part. -/
theorem dget_append_right {l l' : List (String × Json)} {k : String}
    (h : dget l k = none) : dget (l ++ l') k = dget l' k := by
  induction l with
  | nil => rfl
  | cons e t ih =>
    rcases e with ⟨k', v'⟩
    rw [dget] at h
    rw [List.cons_append, dget]
    by_cases he : k' = k
    · rw [if_pos he] at h
      exact Option.noConfusion h
    · rw [if_neg he] at h
      rw [if_neg he]
      exact ih h

/-- Deleting a key undoes a set of the same key. -/
theorem ddel_dset (l : List (String × Json)) (k : String) (v : Json) :
    ddel (dset l k v) k = ddel l k := by
  induction l with
  | nil => simp [dset, ddel]
  | cons e t ih =>
    rcases e with ⟨k', v'⟩
    by_cases he : k' = k
    · subst he
      rw [dset, if_pos rfl, ddel, if_pos rfl, ddel, if_pos rfl]
    · rw [dset, if_neg he, ddel, if_neg he, ih, ddel, if_neg he]

/-- Deleting cannot introduce a key. -/
theorem keymem_ddel_false {l : List (String × Json)} {x : String}
    (h : keymem (l.map Prod.fst) x = false) (k : String) :
    keymem ((ddel l k).map Prod.fst) x = false := by
  induction l with
  | nil => exact h
  | cons e t ih =>
    rcases e with ⟨k', v'⟩
    rw [List.map_cons, keymem] at h
    rw [Bool.or_eq_false_iff] at h
    rw [ddel]
    by_cases he : k' = k
    · rw [if_pos he]
      exact h.2
    · rw [if_neg he, List.map_cons, keymem, Bool.or_eq_false_iff]
      exact ⟨h.1, ih h.2⟩

/-- Deleting preserves key uniqueness. -/
theorem nokeydup_ddel {l : List (String × Json)} (k : String)
    (h : nokeydup (l.map Prod.fst) = true) :
    nokeydup ((ddel l k).map Prod.fst) = true := by
  induction l with
  | nil => exact h
  | cons e t ih =>
    rcases e with ⟨k', v'⟩
    rw [List.map_cons, nokeydup, Bool.and_eq_true] at h
    rw [ddel]
    by_cases he : k' = k
    · rw [if_pos he]
      exact h.2
    · rw [if_neg he, List.map_cons, nokeydup, Bool.and_eq_true]
      refine ⟨?_, ih h.2⟩
      rw [Bool.not_eq_true'] at h ⊢
      exact keymem_ddel_false h.1 k

/-- With unique keys, a deleted key is gone. -/
theorem dget_ddel_self {l : List (String × Json)} {k : String}
    (h : nokeydup (l.map Prod.fst) = true) : dget (ddel l k) k = none := by
  induction l with
  | nil => rfl
  | cons e t ih =>
    rcases e with ⟨k', v'⟩
    rw [List.map_cons, nokeydup, Bool.and_eq_true] at h
    rw [ddel]
    by_cases he : k' = k
    · rw [if_pos he]
      rw [dget_none_iff]
      rw [Bool.not_eq_true'] at h
      rw [← he]
      exact h.1
    · rw [if_neg he, dget, if_neg he]
      exact ih h.2

/-- Key membership distributes over append. -/
theorem keymem_append (xs ys : List String) (x : String) :
    keymem (xs ++ ys) x = (keymem xs x || keymem ys x) := by
  induction xs with
  | nil => rw [List.nil_append, keymem, Bool.false_or]
  | cons a t ih =>
    rw [List.cons_append, keymem, keymem, ih, Bool.or_assoc]

/-- Appending a fresh key preserves key uniqueness. -/
theorem nokeydup_append_one {ks : List String} {k : String}
    (h : nokeydup ks = true) (hm : keymem ks k = false) :
    nokeydup (ks ++ [k]) = true := by
  induction ks with
  | nil => rfl
  | cons a t ih =>
    rw [nokeydup, Bool.and_eq_true] at h
    rw [keymem, Bool.or_eq_false_iff] at hm
    rw [List.cons_append, nokeydup, Bool.and_eq_true]
    refine ⟨?_, ih h.2 hm.2⟩
    rw [Bool.not_eq_true']
    rw [keymem_append, Bool.or_eq_false_iff]
    refine ⟨?_, ?_⟩
    · rw [Bool.not_eq_true'] at h
      exact h.1
    · rw [keymem, keymem, Bool.or_eq_false_iff]
      refine ⟨?_, rfl⟩
      have : ¬(k = a) := fun he => by
        rw [he] at hm
        simp at hm
      simp [this]

/-- `dict_enter` preserves key uniqueness. -/
theorem nokeydup_enterOne {l : List (String × Json)} (k : String) (v : Json)
    (h : nokeydup (l.map Prod.fst) = true) :
    nokeydup ((enterOne l k v).map Prod.fst) = true := by
  rw [enterOne]
  by_cases hk : dhaskey l k
  · rw [if_pos hk]
    exact h
  · rw [if_neg hk]
    cases hg : dget l k with
    | some w =>
      rw [dhaskey, hg] at hk
      exact absurd rfl hk
    | none =>
      rw [dset_append_of_none hg, List.map_append, List.map_cons, List.map_nil]
      exact nokeydup_append_one h (dget_none_iff.mp hg)

/-- Sub-values of a well-formed document are well-formed. -/
theorem jnodup_dget {l : List (String × Json)} {k : String} {v : Json}
    (h : jnodup (.obj l) = true) (hg : dget l k = some v) : jnodup v = true := by
  rw [jnodup, Bool.and_eq_true] at h
  rcases h with ⟨-, h⟩
  induction l with
  | nil => exact Option.noConfusion hg
  | cons e t ih =>
    rcases e with ⟨k', v'⟩
    rw [jnodupE, Bool.and_eq_true] at h
    rw [dget] at hg
    by_cases he : k' = k
    · rw [if_pos he] at hg
      injection hg with hg
      rw [← hg]
      exact h.1
    · rw [if_neg he] at hg
      exact ih hg h.2

/-- The keys of a well-formed object are unique. -/
theorem jnodup_keys {l : List (String × Json)}
    (h : jnodup (.obj l) = true) : nokeydup (l.map Prod.fst) = true := by
  rw [jnodup, Bool.and_eq_true] at h
  exact h.1

/-- Code-point order: asymmetry. -/
theorem ult_asymm {a b : UInt32} (h : a < b) : ¬ b < a := by
  intro h2
  have h1 : a.toNat < b.toNat := by exact_mod_cast h
  have h3 : b.toNat < a.toNat := by exact_mod_cast h2
  omega

/-- Code-point order: transitivity. -/
theorem ult_trans {a b c : UInt32} (h : a < b) (h2 : b < c) : a < c := by
  have h1 : a.toNat < b.toNat := by exact_mod_cast h
  have h3 : b.toNat < c.toNat := by exact_mod_cast h2
  have h4 : a.toNat < c.toNat := by omega
  exact_mod_cast h4

/-- Code-point order: incomparable points are equal. -/
theorem ueq_of_not_lt {a b : UInt32} (h : ¬ a < b) (h2 : ¬ b < a) : a = b := by
  have h1 : ¬ a.toNat < b.toNat := fun hh => h (by exact_mod_cast hh)
  have h3 : ¬ b.toNat < a.toNat := fun hh => h2 (by exact_mod_cast hh)
  exact UInt32.toNat.inj (by omega)

/-- Code-point comparison is total. -/
theorem charsLe_total (a : List Char) : ∀ b : List Char,
    charsLe a b = true ∨ charsLe b a = true := by
  induction a with
  | nil => intro b; left; rfl
  | cons x xs ih =>
    intro b
    cases b with
    | nil => right; rfl
    | cons y ys =>
      rw [charsLe, charsLe]
      by_cases h1 : x.val < y.val
      · left
        rw [if_pos h1]
      · by_cases h2 : y.val < x.val
        · right
          rw [if_pos h2]
        · rw [if_neg h1, if_neg h2, if_neg h2, if_neg h1]
          exact ih ys

/-- Code-point comparison is antisymmetric. -/
theorem charsLe_antisymm {a : List Char} : ∀ {b : List Char},
    charsLe a b = true → charsLe b a = true → a = b := by
  induction a with
  | nil =>
    intro b h1 h2
    cases b with
    | nil => rfl
    | cons y ys => exact Bool.noConfusion h2
  | cons x xs ih =>
    intro b h1 h2
    cases b with
    | nil => exact Bool.noConfusion h1
    | cons y ys =>
      rw [charsLe] at h1 h2
      by_cases hxy : x.val < y.val
      · rw [if_neg (ult_asymm hxy), if_pos hxy] at h2
        exact Bool.noConfusion h2
      · by_cases hyx : y.val < x.val
        · rw [if_neg (ult_asymm hyx), if_pos hyx] at h1
          exact Bool.noConfusion h1
        · rw [if_neg hxy, if_neg hyx] at h1
          rw [if_neg hyx, if_neg hxy] at h2
          have hv : x.val = y.val := ueq_of_not_lt hxy hyx
          have hc : x = y := Char.ext hv
          rw [hc, ih h1 h2]

/-- Code-point comparison is transitive. -/
theorem charsLe_trans {a : List Char} : ∀ {b c : List Char},
    charsLe a b = true → charsLe b c = true → charsLe a c = true := by
  induction a with
  | nil => intro b c h1 h2; rfl
  | cons x xs ih =>
    intro b c h1 h2
    cases b with
    | nil => exact Bool.noConfusion h1
    | cons y ys =>
      cases c with
      | nil => exact Bool.noConfusion h2
      | cons z zs =>
        rw [charsLe] at h1 h2 ⊢
        by_cases hxy : x.val < y.val
        · by_cases hyz : y.val < z.val
          · rw [if_pos (ult_trans hxy hyz)]
          · by_cases hzy : z.val < y.val
            · rw [if_neg (ult_asymm hzy), if_pos hzy] at h2
              exact Bool.noConfusion h2
            · have : y.val = z.val := ueq_of_not_lt hyz hzy
              rw [if_pos (this ▸ hxy)]
        · by_cases hyx : y.val < x.val
          · rw [if_neg (ult_asymm hyx), if_pos hyx] at h1
            exact Bool.noConfusion h1
          · have hxyv : x.val = y.val := ueq_of_not_lt hxy hyx
            by_cases hyz : y.val < z.val
            · rw [if_pos (hxyv ▸ hyz)]
            · by_cases hzy : z.val < y.val
              · rw [if_neg (ult_asymm hzy), if_pos hzy] at h2
                exact Bool.noConfusion h2
              · rw [if_neg hyz, if_neg hzy] at h2
                rw [if_neg hxy, if_neg hyx] at h1
                have hxz : ¬ x.val < z.val := by
                  rw [hxyv]; exact hyz
                have hzx : ¬ z.val < x.val := by
                  rw [hxyv]; exact hzy
                rw [if_neg hxz, if_neg hzx]
                exact ih h1 h2

/-- Key comparison is total. -/
theorem strLe_total (a b : String) : strLe a b = true ∨ strLe b a = true :=
  charsLe_total a.toList b.toList

/-- Key comparison is antisymmetric. -/
theorem strLe_antisymm {a b : String} (h1 : strLe a b = true)
    (h2 : strLe b a = true) : a = b := by
  have := charsLe_antisymm h1 h2
  have hd : a.data = b.data := this
  cases a
  cases b
  cases hd
  rfl

/-- Key comparison is transitive. -/
theorem strLe_trans {a b c : String} (h1 : strLe a b = true)
    (h2 : strLe b c = true) : strLe a c = true :=
  charsLe_trans h1 h2

/-- Between distinct keys, the comparison holds in exactly one direction. -/
theorem strLe_asymm_of_ne {a b : String} (hne : a ≠ b)
    (h : strLe a b = true) : strLe b a = false := by
  cases hba : strLe b a with
  | false => rfl
  | true => exact absurd (strLe_antisymm h hba) hne

/-- Inserting never yields the empty list. -/
theorem insEntry_ne_nil (e : String × Json) (s : List (String × Json)) :
    insEntry e s ≠ [] := by
  cases s with
  | nil => intro h; exact List.noConfusion h
  | cons f t =>
    rw [insEntry]
    split <;> intro h <;> exact List.noConfusion h

/-- Inserting two entries with distinct keys commutes. -/
theorem insEntry_comm {e f : String × Json} (hne : e.1 ≠ f.1) :
    ∀ s, insEntry e (insEntry f s) = insEntry f (insEntry e s) := by
  intro s
  induction s with
  | nil =>
    by_cases hA : strLe e.1 f.1 = true
    · have hB := strLe_asymm_of_ne hne hA
      simp [insEntry, hA, hB]
    · have hB : strLe f.1 e.1 = true := (strLe_total e.1 f.1).resolve_left hA
      have hA' : strLe e.1 f.1 = false := by simpa using hA
      simp [insEntry, hA', hB]
  | cons g t ih =>
    by_cases hD : strLe f.1 g.1 = true
    · by_cases hA : strLe e.1 f.1 = true
      · have hB := strLe_asymm_of_ne hne hA
        have hC := strLe_trans hA hD
        simp [insEntry, hA, hB, hC, hD]
      · have hB : strLe f.1 e.1 = true := (strLe_total e.1 f.1).resolve_left hA
        have hA' : strLe e.1 f.1 = false := by simpa using hA
        by_cases hC : strLe e.1 g.1 = true
        · simp [insEntry, hA', hB, hC, hD]
        · have hC' : strLe e.1 g.1 = false := by simpa using hC
          simp [insEntry, hA', hB, hC', hD]
    · have hD' : strLe f.1 g.1 = false := by simpa using hD
      by_cases hC : strLe e.1 g.1 = true
      · have hB' : strLe f.1 e.1 = false := by
          cases h : strLe f.1 e.1 with
          | false => rfl
          | true => exact absurd (strLe_trans h hC) hD
        simp [insEntry, hC, hB', hD']
      · have hC' : strLe e.1 g.1 = false := by simpa using hC
        simp [insEntry, hC', hD', ih]

/-- Appending an entry with a fresh key sorts to a front insertion. -/
theorem sortEntries_append_one {ys : List (String × Json)} {e : String × Json}
    (h : keymem (ys.map Prod.fst) e.1 = false) :
    sortEntries (ys ++ [e]) = insEntry e (sortEntries ys) := by
  induction ys with
  | nil => rfl
  | cons y t ih =>
    rw [List.map_cons, keymem, Bool.or_eq_false_iff] at h
    have hne : y.1 ≠ e.1 := of_decide_eq_false h.1
    rw [List.cons_append, sortEntries, ih h.2, sortEntries]
    exact insEntry_comm hne _

/-- Canonicalization of entries distributes over append. -/
theorem canonEntries_append (a b : List (String × Json)) :
    canonEntries (a ++ b) = canonEntries a ++ canonEntries b := by
  induction a with
  | nil => rfl
  | cons e t ih =>
    rcases e with ⟨k, v⟩
    rw [List.cons_append, canonEntries, canonEntries, ih, List.cons_append]

/-- Canonicalization keeps the keys. -/
theorem keys_canonEntries (l : List (String × Json)) :
    (canonEntries l).map Prod.fst = l.map Prod.fst := by
  induction l with
  | nil => rfl
  | cons e t ih =>
    rcases e with ⟨k, v⟩
    rw [canonEntries, List.map_cons, List.map_cons, ih]

/-- Deleting an entry and re-appending its value under the same key is
invisible to Python dict equality (with unique keys). -/
theorem canon_strip_reinsert {l : List (String × Json)} {k : String} {v : Json}
    (hnd : nokeydup (l.map Prod.fst) = true) (hg : dget l k = some v) :
    canon (.obj (ddel l k ++ [(k, v)])) = canon (.obj l) := by
  induction l with
  | nil => exact Option.noConfusion hg
  | cons e t ih =>
    rcases e with ⟨k0, v0⟩
    rw [List.map_cons, nokeydup, Bool.and_eq_true] at hnd
    rw [dget] at hg
    by_cases he : k0 = k
    · rw [if_pos he] at hg
      injection hg with hg
      rw [ddel, if_pos he, canon, canon, canonEntries_append, canonEntries,
        canonEntries, canonEntries]
      have hk : keymem ((canonEntries t).map Prod.fst) k = false := by
        rw [keys_canonEntries]
        have := hnd.1
        rw [Bool.not_eq_true'] at this
        rw [← he]
        exact this
      rw [sortEntries_append_one hk, sortEntries, he, hg]
    · rw [if_neg he] at hg
      rw [ddel, if_neg he, List.cons_append, canon, canon]
      have hih := ih hnd.2 hg
      rw [canon, canon] at hih
      injection hih with hih
      rw [canonEntries, canonEntries, sortEntries, sortEntries, hih]

/-- Replacing an existing entry by a Python-==-equal value is invisible to
Python dict equality. -/
theorem canon_dset_congr {l : List (String × Json)} {k : String} {w v : Json}
    (hg : dget l k = some w) (hc : canon v = canon w) :
    canon (.obj (dset l k v)) = canon (.obj l) := by
  induction l with
  | nil => exact Option.noConfusion hg
  | cons e t ih =>
    rcases e with ⟨k0, v0⟩
    rw [dget] at hg
    by_cases he : k0 = k
    · rw [if_pos he] at hg
      injection hg with hg
      rw [dset, if_pos he, canon, canon, canonEntries, canonEntries,
        sortEntries, sortEntries, he, hg, hc]
    · rw [if_neg he] at hg
      have hih := ih hg
      rw [canon, canon] at hih
      injection hih with hih
      rw [dset, if_neg he, canon, canon, canonEntries, canonEntries,
        sortEntries, sortEntries, hih]

/-- Canonicalization of a nonempty list is nonempty. -/
theorem canonList_eq_nil {es : List Json} (h : canonList es = []) : es = [] := by
  cases es with
  | nil => rfl
  | cons j t =>
    rw [canonList] at h
    exact List.noConfusion h

/-- Canonicalization of nonempty entries is nonempty. -/
theorem canonEntries_eq_nil {l : List (String × Json)}
    (h : canonEntries l = []) : l = [] := by
  cases l with
  | nil => rfl
  | cons e t =>
    rcases e with ⟨k, v⟩
    rw [canonEntries] at h
    exact List.noConfusion h

/-- Sorting a nonempty list is nonempty. -/
theorem sortEntries_eq_nil {l : List (String × Json)}
    (h : sortEntries l = []) : l = [] := by
  cases l with
  | nil => rfl
  | cons e t =>
    rw [sortEntries] at h
    exact absurd h (insEntry_ne_nil e _)

/-- Only the empty dict is Python-== to the empty dict. -/
theorem canon_eq_empty_obj {v : Json} : canon v = .obj [] ↔ v = .obj [] := by
  constructor
  · intro h
    cases v with
    | null => rw [canon] at h; exact Json.noConfusion h
    | bool b => rw [canon] at h; exact Json.noConfusion h
    | num n => rw [canon] at h; exact Json.noConfusion h
    | str s => rw [canon] at h; exact Json.noConfusion h
    | arr es => rw [canon] at h; exact Json.noConfusion h
    | obj l =>
      rw [canon] at h
      injection h with h
      rw [canonEntries_eq_nil (sortEntries_eq_nil h)]
  · intro h
    rw [h]
    rfl

/-- Only the empty list is Python-== to the empty list. -/
theorem canon_eq_empty_arr {v : Json} : canon v = .arr [] ↔ v = .arr [] := by
  constructor
  · intro h
    cases v with
    | null => rw [canon] at h; exact Json.noConfusion h
    | bool b => rw [canon] at h; exact Json.noConfusion h
    | num n => rw [canon] at h; exact Json.noConfusion h
    | str s => rw [canon] at h; exact Json.noConfusion h
    | obj l => rw [canon] at h; exact Json.noConfusion h
    | arr es =>
      rw [canon] at h
      injection h with h
      rw [canonList_eq_nil h]
  · intro h
    rw [h]
    rfl

/-- `x == {}` in Python terms. -/
theorem pyEq_empty_obj {v : Json} : pyEq v (.obj []) = true ↔ v = .obj [] := by
  rw [pyEq, decide_eq_true_eq]
  have h0 : canon (.obj []) = .obj [] := rfl
  rw [h0]
  exact canon_eq_empty_obj

/-- `x == []` in Python terms. -/
theorem pyEq_empty_arr {v : Json} : pyEq v (.arr []) = true ↔ v = .arr [] := by
  rw [pyEq, decide_eq_true_eq]
  have h0 : canon (.arr []) = .arr [] := rfl
  rw [h0]
  exact canon_eq_empty_arr

/-- Canonically equal values are Python-==. -/
theorem pyEq_of_canon {a b : Json} (h : canon a = canon b) : pyEq a b = true := by
  rw [pyEq, decide_eq_true_eq]
  exact h

/-- One-component `_strip` step against the spec's removal step. -/
theorem stripStep_one (l : List (String × Json)) (k : String) (dflt : Json) :
    stripStep (.obj l) [k] dflt =
      .ok (minimalFormSpec.step (.obj l) [.key k] dflt) := by
  rw [stripStep, minimalFormSpec.step, getPath_obj_key]
  cases hg : dget l k with
  | none =>
    dsimp only [Option.bind]
    rw [dict_strip, hg]
  | some v =>
    dsimp only [Option.bind]
    rw [getPath_nil]
    dsimp only
    rw [dict_strip, hg]
    dsimp only
    by_cases hpe : pyEq v dflt = true
    · rw [if_pos hpe, if_pos hpe]
      rfl
    · rw [if_neg hpe, if_neg hpe]

/-- Two-component `_strip` step against the spec's removal step (the walk
reaches a truthy dictionary). -/
theorem stripStep_two {l pl : List (String × Json)} (k1 k2 : String) (dflt : Json)
    (h1 : dget l k1 = some (.obj pl)) (hne : pl ≠ []) :
    stripStep (.obj l) [k1, k2] dflt =
      .ok (minimalFormSpec.step (.obj l) [.key k1, .key k2] dflt) := by
  rw [stripStep, h1]
  dsimp only
  rw [if_pos (truthy_obj_of_ne hne)]
  rw [stripStep]
  dsimp only
  rw [minimalFormSpec.step, getPath_obj_key, h1]
  dsimp only [Option.bind]
  rw [getPath_obj_key]
  cases hg : dget pl k2 with
  | none =>
    dsimp only [Option.bind]
    rw [dict_strip, hg]
    rw [dset_self h1]
  | some v =>
    dsimp only [Option.bind]
    rw [getPath_nil]
    dsimp only
    rw [dict_strip, hg]
    dsimp only
    by_cases hpe : pyEq v dflt = true
    · rw [if_pos hpe, if_pos hpe, removeAtPath, h1]
      rfl
    · rw [if_neg hpe, if_neg hpe, dset_self h1]

/-- Three-component `_strip` step against the spec's removal step. -/
theorem stripStep_three {l sl fl : List (String × Json)} (k1 k2 k3 : String)
    (dflt : Json)
    (h1 : dget l k1 = some (.obj sl)) (hne1 : sl ≠ [])
    (h2 : dget sl k2 = some (.obj fl)) (hne2 : fl ≠ []) :
    stripStep (.obj l) [k1, k2, k3] dflt =
      .ok (minimalFormSpec.step (.obj l) [.key k1, .key k2, .key k3] dflt) := by
  rw [stripStep, h1]
  dsimp only
  rw [if_pos (truthy_obj_of_ne hne1)]
  rw [stripStep, h2]
  dsimp only
  rw [if_pos (truthy_obj_of_ne hne2)]
  rw [stripStep]
  dsimp only
  rw [minimalFormSpec.step, getPath_obj_key, h1]
  dsimp only [Option.bind]
  rw [getPath_obj_key, h2]
  dsimp only [Option.bind]
  rw [getPath_obj_key]
  cases hg : dget fl k3 with
  | none =>
    dsimp only [Option.bind]
    rw [dict_strip, hg]
    rw [dset_self h2, dset_self h1]
  | some v =>
    dsimp only [Option.bind]
    rw [getPath_nil]
    dsimp only
    rw [dict_strip, hg]
    dsimp only
    by_cases hpe : pyEq v dflt = true
    · rw [if_pos hpe, if_pos hpe, removeAtPath, h1]
      dsimp only
      rw [removeAtPath, h2]
      rfl
    · rw [if_neg hpe, if_neg hpe, dset_self h2, dset_self h1]

/-- The levels walk of a root whose pipeline has no nested build. -/
theorem walk_ok_top {R P1 : List (String × Json)}
    (hgp : dget R "pipeline" = some (.obj P1)) (hRne : R ≠ []) (hPne : P1 ≠ [])
    (hb : dget P1 "build" = none) :
    levelsFrom [] (.obj R) = .ok [([], .obj R)] := by
  rw [levelsFrom_eq, if_pos (truthy_obj_of_ne hRne)]
  dsimp only
  rw [hgp]
  dsimp only
  rw [if_pos (truthy_obj_of_ne hPne)]
  rw [hb]

/-- The levels walk of a root whose pipeline carries a walkable nested
build chain. -/
theorem walk_ok_build {R P1 : List (String × Json)} {b : Json}
    {rest : List (Path × Json)}
    (hgp : dget R "pipeline" = some (.obj P1)) (hRne : R ≠ []) (hPne : P1 ≠ [])
    (hb : dget P1 "build" = some b)
    (hr : levelsFrom [.key "pipeline", .key "build"] b = .ok rest) :
    levelsFrom [] (.obj R) = .ok (([], .obj R) :: rest) := by
  rw [levelsFrom_eq, if_pos (truthy_obj_of_ne hRne)]
  dsimp only
  rw [hgp]
  dsimp only
  rw [if_pos (truthy_obj_of_ne hPne)]
  rw [hb]
  dsimp only
  rw [List.nil_append, hr]

/-- A successful walk from the root yields a successful walk of the nested
build chain. -/
theorem walk_extract {R P1 : List (String × Json)} {b : Json}
    {lv : List (Path × Json)}
    (h : levelsFrom [] (.obj R) = .ok lv)
    (hgp : dget R "pipeline" = some (.obj P1)) (hPne : P1 ≠ [])
    (hb : dget P1 "build" = some b) :
    ∃ rest, levelsFrom [.key "pipeline", .key "build"] b = .ok rest := by
  rw [levelsFrom_eq] at h
  have hRne : R ≠ [] := ne_nil_of_dget hgp
  rw [if_pos (truthy_obj_of_ne hRne)] at h
  dsimp only at h
  rw [hgp] at h
  dsimp only at h
  rw [if_pos (truthy_obj_of_ne hPne)] at h
  rw [hb] at h
  dsimp only at h
  rw [List.nil_append] at h
  cases hr : levelsFrom [.key "pipeline", .key "build"] b with
  | ok rest => exact ⟨rest, rfl⟩
  | error e =>
    rw [hr] at h
    exact Except.noConfusion h

/-- `Manifest.refresh` computed forward: the five `dict_enter` walks
succeed and the result is the tree with the missing defaults appended. -/
theorem refresh_compute {r P S F R2 S2 : List (String × Json)}
    {lv : List (Path × Json)}
    (hR2 : R2 = enterOne (dset (enterOne r "pipeline" (.obj [])) "pipeline"
      (.obj (enterOne P "stages" (.arr [])))) "sources" (.obj []))
    (hS2 : S2 = dset (enterOne S "org.osbuild.files" (.obj []))
      "org.osbuild.files" (.obj (enterOne F "urls" (.obj []))))
    (hP : dget (enterOne r "pipeline" (.obj [])) "pipeline" = some (.obj P))
    (hS : dget R2 "sources" = some (.obj S))
    (hF : dget (enterOne S "org.osbuild.files" (.obj []))
      "org.osbuild.files" = some (.obj F))
    (hlv : levelsFrom [] (.obj (dset R2 "sources" (.obj S2))) = .ok lv) :
    refresh (.obj r) = .ok (.obj (dset R2 "sources" (.obj S2))) := by
  subst hR2
  subst hS2
  rw [refresh]
  have e1 : enterPath (.obj r) ["pipeline"] (.obj []) =
      .ok (.obj (enterOne r "pipeline" (.obj []))) := rfl
  rw [e1]
  dsimp only
  have e2 : enterPath (.obj (enterOne r "pipeline" (.obj [])))
      ["pipeline", "stages"] (.arr []) =
      .ok (.obj (dset (enterOne r "pipeline" (.obj [])) "pipeline"
        (.obj (enterOne P "stages" (.arr []))))) := by
    rw [enterPath, hP]
    rfl
  rw [e2]
  dsimp only
  have e3 : enterPath (.obj (dset (enterOne r "pipeline" (.obj [])) "pipeline"
      (.obj (enterOne P "stages" (.arr []))))) ["sources"] (.obj []) =
      .ok (.obj (enterOne (dset (enterOne r "pipeline" (.obj [])) "pipeline"
        (.obj (enterOne P "stages" (.arr [])))) "sources" (.obj []))) := rfl
  rw [e3]
  dsimp only
  have e4 : enterPath (.obj (enterOne (dset (enterOne r "pipeline" (.obj []))
      "pipeline" (.obj (enterOne P "stages" (.arr [])))) "sources" (.obj [])))
      ["sources", "org.osbuild.files"] (.obj []) =
      .ok (.obj (dset (enterOne (dset (enterOne r "pipeline" (.obj []))
        "pipeline" (.obj (enterOne P "stages" (.arr [])))) "sources" (.obj []))
        "sources" (.obj (enterOne S "org.osbuild.files" (.obj []))))) := by
    rw [enterPath, hS]
    rfl
  rw [e4]
  dsimp only
  have e5 : enterPath (.obj (dset (enterOne (dset (enterOne r "pipeline" (.obj []))
      "pipeline" (.obj (enterOne P "stages" (.arr [])))) "sources" (.obj []))
      "sources" (.obj (enterOne S "org.osbuild.files" (.obj [])))))
      ["sources", "org.osbuild.files", "urls"] (.obj []) =
      .ok (.obj (dset (enterOne (dset (enterOne r "pipeline" (.obj []))
        "pipeline" (.obj (enterOne P "stages" (.arr [])))) "sources" (.obj []))
        "sources" (.obj (dset (enterOne S "org.osbuild.files" (.obj []))
          "org.osbuild.files" (.obj (enterOne F "urls" (.obj []))))))) := by
    have i1 : enterPath (.obj (enterOne S "org.osbuild.files" (.obj [])))
        ["org.osbuild.files", "urls"] (.obj []) =
        .ok (.obj (dset (enterOne S "org.osbuild.files" (.obj []))
          "org.osbuild.files" (.obj (enterOne F "urls" (.obj []))))) := by
      rw [enterPath, hF]
      rfl
    rw [enterPath, dget_dset_self]
    dsimp only
    rw [i1]
    dsimp only
    rw [dset_dset]
  rw [e5]
  dsimp only
  rw [hlv]

/-- `dict_enter` keeps the list when the key is present. -/
theorem enterOne_of_some {l : List (String × Json)} {k : String} {w : Json}
    (h : dget l k = some w) (v : Json) : enterOne l k v = l := by
  rw [enterOne, dhaskey, h]
  rfl

/-- `dict_enter` appends the default when the key is absent. -/
theorem enterOne_of_none {l : List (String × Json)} {k : String}
    (h : dget l k = none) (v : Json) : enterOne l k v = l ++ [(k, v)] := by
  rw [enterOne, dhaskey, h]
  exact dset_append_of_none h v

/-- The pipeline side of stripping and re-loading: the two shallow strip
steps against their spec steps, and the pipeline/stages links the re-load
rebuilds from the stripped root, which are Python-== to the originals. -/
theorem c5_pipe {rs plC : List (String × Json)} {sv : Json}
    (hgp : dget rs "pipeline" = some (.obj plC))
    (hgsv : dget plC "stages" = some sv)
    (hndP : nokeydup (plC.map Prod.fst) = true)
    (hndR : nokeydup (rs.map Prod.fst) = true) :
    ∃ (rp P1 : List (String × Json)) (sv' : Json) (m4 : Json),
      stripStep (.obj rs) ["pipeline", "stages"] (.arr []) = .ok m4 ∧
      stripStep m4 ["pipeline"] (.obj []) = .ok (.obj rp) ∧
      minimalFormSpec.step (minimalFormSpec.step (.obj rs)
        [.key "pipeline", .key "stages"] (.arr []))
        [.key "pipeline"] (.obj []) = .obj rp ∧
      dget rp "sources" = dget rs "sources" ∧
      dget (enterOne rp "pipeline" (.obj [])) "pipeline" = some (.obj P1) ∧
      dget (enterOne P1 "stages" (.arr [])) "stages" = some sv' ∧
      (dget (enterOne P1 "stages" (.arr [])) "build" = dget plC "build" ∨
       dget (enterOne P1 "stages" (.arr [])) "build" = none) ∧
      enterOne P1 "stages" (.arr []) ≠ [] ∧
      canon (.obj (enterOne P1 "stages" (.arr []))) = canon (.obj plC) ∧
      canon sv' = canon sv := by
  have hPne : plC ≠ [] := ne_nil_of_dget hgsv
  have hst4 := stripStep_two "pipeline" "stages" (.arr []) hgp hPne
  by_cases hsv : sv = .arr []
  · subst hsv
    have hstep4 : minimalFormSpec.step (.obj rs)
        [.key "pipeline", .key "stages"] (.arr []) =
        .obj (dset rs "pipeline" (.obj (ddel plC "stages"))) := by
      rw [minimalFormSpec.step, getPath_obj_key, hgp]
      dsimp only [Option.bind]
      rw [getPath_obj_key, hgsv]
      dsimp only [Option.bind]
      rw [getPath_nil]
      dsimp only
      rw [if_pos (pyEq_of_canon rfl), removeAtPath, hgp]
      rfl
    by_cases hp : ddel plC "stages" = []
    · have hplC : plC = [("stages", Json.arr [])] := by
        cases plC with
        | nil => exact absurd hgsv (by rw [dget]; exact fun h => Option.noConfusion h)
        | cons e t =>
          rcases e with ⟨k0, v0⟩
          rw [ddel] at hp
          by_cases he : k0 = "stages"
          · rw [if_pos he] at hp
            subst hp
            rw [dget, if_pos he] at hgsv
            injection hgsv with hgsv
            rw [he, hgsv]
          · rw [if_neg he] at hp
            exact absurd hp (List.cons_ne_nil _ _)
      have hstep5 : minimalFormSpec.step
          (.obj (dset rs "pipeline" (.obj (ddel plC "stages"))))
          [.key "pipeline"] (.obj []) = .obj (ddel rs "pipeline") := by
        rw [minimalFormSpec.step, getPath_obj_key, dget_dset_self]
        dsimp only [Option.bind]
        rw [getPath_nil]
        dsimp only
        rw [hp, if_pos (pyEq_of_canon rfl), removeAtPath, ddel_dset]
      have hnone : dget (ddel rs "pipeline") "pipeline" = none :=
        dget_ddel_self hndR
      refine ⟨ddel rs "pipeline", [], .arr [], _, hst4, ?_, ?_, ?_, ?_, rfl,
        .inr rfl, ?_, ?_, rfl⟩
      · rw [hstep4]
        rw [stripStep_one, hstep5]
      · rw [hstep4, hstep5]
      · exact dget_ddel_ne (by decide)
      · rw [enterOne_of_none hnone, dget_append_right hnone]
        rfl
      · intro h
        exact List.noConfusion h
      · rw [hplC]
        rfl
    · have hpD : dget (ddel plC "stages") "stages" = none := dget_ddel_self hndP
      have hpe2 : pyEq (.obj (ddel plC "stages")) (.obj []) = false := by
        cases h : pyEq (.obj (ddel plC "stages")) (.obj []) with
        | true =>
          have := pyEq_empty_obj.mp h
          injection this with this
          exact absurd this hp
        | false => rfl
      have hstep5 : minimalFormSpec.step
          (.obj (dset rs "pipeline" (.obj (ddel plC "stages"))))
          [.key "pipeline"] (.obj []) =
          .obj (dset rs "pipeline" (.obj (ddel plC "stages"))) := by
        rw [minimalFormSpec.step, getPath_obj_key, dget_dset_self]
        dsimp only [Option.bind]
        rw [getPath_nil]
        dsimp only
        rw [hpe2, if_neg Bool.false_ne_true]
      have hdd : dget (ddel plC "stages") "build" = dget plC "build" :=
        dget_ddel_ne (by decide)
      refine ⟨dset rs "pipeline" (.obj (ddel plC "stages")), ddel plC "stages",
        .arr [], _, hst4, ?_, ?_, ?_, ?_, ?_, ?_, ?_, ?_, rfl⟩
      · rw [hstep4]
        rw [stripStep_one, hstep5]
      · rw [hstep4, hstep5]
      · exact dget_dset_ne (by decide)
      · rw [enterOne_of_some (dget_dset_self rs "pipeline" _) (.obj [])]
        exact dget_dset_self rs "pipeline" _
      · rw [enterOne_of_none hpD, dget_append_right hpD]
        rfl
      · left
        rw [enterOne_of_none hpD]
        cases hb : dget (ddel plC "stages") "build" with
        | some w => rw [dget_append_left hb, ← hdd, hb]
        | none =>
          rw [dget_append_right hb, ← hdd, hb]
          rfl
      · rw [enterOne_of_none hpD]
        intro h
        rcases List.append_eq_nil.mp h with ⟨-, h2⟩
        exact List.noConfusion h2
      · rw [enterOne_of_none hpD]
        exact canon_strip_reinsert hndP hgsv
  · have hpe : pyEq sv (.arr []) = false := by
      cases h : pyEq sv (.arr []) with
      | true => exact absurd (pyEq_empty_arr.mp h) hsv
      | false => rfl
    have hstep4 : minimalFormSpec.step (.obj rs)
        [.key "pipeline", .key "stages"] (.arr []) = .obj rs := by
      rw [minimalFormSpec.step, getPath_obj_key, hgp]
      dsimp only [Option.bind]
      rw [getPath_obj_key, hgsv]
      dsimp only [Option.bind]
      rw [getPath_nil]
      dsimp only
      rw [hpe, if_neg Bool.false_ne_true]
    have hpe2 : pyEq (.obj plC) (.obj []) = false := by
      cases h : pyEq (.obj plC) (.obj []) with
      | true =>
        have := pyEq_empty_obj.mp h
        injection this with this
        exact absurd this hPne
      | false => rfl
    have hstep5 : minimalFormSpec.step (.obj rs) [.key "pipeline"] (.obj []) =
        .obj rs := by
      rw [minimalFormSpec.step, getPath_obj_key, hgp]
      dsimp only [Option.bind]
      rw [getPath_nil]
      dsimp only
      rw [hpe2, if_neg Bool.false_ne_true]
    refine ⟨rs, plC, sv, _, hst4, ?_, ?_, rfl, ?_, ?_, ?_, ?_, ?_, rfl⟩
    · rw [hstep4]
      rw [stripStep_one, hstep5]
    · rw [hstep4, hstep5]
    · rw [enterOne_of_some hgp (.obj [])]
      exact hgp
    · rw [enterOne_of_some hgsv (.arr [])]
      exact hgsv
    · left
      rw [enterOne_of_some hgsv (.arr [])]
    · rw [enterOne_of_some hgsv (.arr [])]
      exact hPne
    · rw [enterOne_of_some hgsv (.arr [])]

/-- Setting the key that an append just introduced overwrites the appended
entry. -/
theorem dset_append_last {l : List (String × Json)} {k : String}
    (h : dget l k = none) (w v : Json) :
    dset (l ++ [(k, w)]) k v = l ++ [(k, v)] := by
  induction l with
  | nil => simp [dset]
  | cons e t ih =>
    rcases e with ⟨k0, v0⟩
    rw [dget] at h
    by_cases he : k0 = k
    · rw [if_pos he] at h
      exact Option.noConfusion h
    · rw [if_neg he] at h
      rw [List.cons_append, dset, if_neg he, ih h, List.cons_append]

/-- A dictionary whose only key is the deleted one was a singleton. -/
theorem eq_single_of_ddel_nil {l : List (String × Json)} {k : String} {v : Json}
    (hg : dget l k = some v) (hd : ddel l k = []) : l = [(k, v)] := by
  cases l with
  | nil => exact Option.noConfusion hg
  | cons e t =>
    rcases e with ⟨k0, v0⟩
    rw [ddel] at hd
    by_cases he : k0 = k
    · rw [if_pos he] at hd
      subst hd
      rw [dget, if_pos he] at hg
      injection hg with hg
      rw [he, hg]
    · rw [if_neg he] at hd
      exact absurd hd (List.cons_ne_nil _ _)

/-- A value other than the empty dict is not Python-== to it. -/
theorem pyEq_empty_obj_false {v : Json} (h : v ≠ .obj []) :
    pyEq v (.obj []) = false := by
  cases hq : pyEq v (.obj []) with
  | true => exact absurd (pyEq_empty_obj.mp hq) h
  | false => rfl

/-- A value other than the empty list is not Python-== to it. -/
theorem pyEq_empty_arr_false {v : Json} (h : v ≠ .arr []) :
    pyEq v (.arr []) = false := by
  cases hq : pyEq v (.arr []) with
  | true => exact absurd (pyEq_empty_arr.mp hq) h
  | false => rfl

/-- The sources side of stripping and re-loading: the three deep strip
steps against their spec steps, and the sources/files/urls links the
re-load rebuilds from the stripped root, which are Python-== to the
originals. -/
theorem c5_src {ML S2C flC : List (String × Json)} {uv : Json}
    (hgs : dget ML "sources" = some (.obj S2C))
    (hgf : dget S2C "org.osbuild.files" = some (.obj flC))
    (hgu : dget flC "urls" = some uv)
    (hndM : nokeydup (ML.map Prod.fst) = true)
    (hndS : nokeydup (S2C.map Prod.fst) = true)
    (hndF : nokeydup (flC.map Prod.fst) = true) :
    ∃ (rs S1 F1 : List (String × Json)) (uv' : Json) (m1 m2 : Json),
      stripStep (.obj ML) ["sources", "org.osbuild.files", "urls"]
        (.obj []) = .ok m1 ∧
      stripStep m1 ["sources", "org.osbuild.files"] (.obj []) = .ok m2 ∧
      stripStep m2 ["sources"] (.obj []) = .ok (.obj rs) ∧
      minimalFormSpec.step (minimalFormSpec.step (minimalFormSpec.step (.obj ML)
        [.key "sources", .key "org.osbuild.files", .key "urls"] (.obj []))
        [.key "sources", .key "org.osbuild.files"] (.obj []))
        [.key "sources"] (.obj []) = .obj rs ∧
      dget rs "pipeline" = dget ML "pipeline" ∧
      nokeydup (rs.map Prod.fst) = true ∧
      (∀ X : List (String × Json), dget X "sources" = dget rs "sources" →
        dget (enterOne X "sources" (.obj [])) "sources" = some (.obj S1)) ∧
      dget (enterOne S1 "org.osbuild.files" (.obj []))
        "org.osbuild.files" = some (.obj F1) ∧
      dget (enterOne F1 "urls" (.obj [])) "urls" = some uv' ∧
      canon (.obj (dset (enterOne S1 "org.osbuild.files" (.obj []))
        "org.osbuild.files" (.obj (enterOne F1 "urls" (.obj []))))) =
        canon (.obj S2C) ∧
      canon (.obj (enterOne F1 "urls" (.obj []))) = canon (.obj flC) ∧
      canon uv' = canon uv := by
  have hSne : S2C ≠ [] := ne_nil_of_dget hgf
  have hFne : flC ≠ [] := ne_nil_of_dget hgu
  have hst1 := stripStep_three "sources" "org.osbuild.files" "urls" (.obj [])
    hgs hSne hgf hFne
  by_cases hu : uv = .obj []
  · subst hu
    have hstep1 : minimalFormSpec.step (.obj ML)
        [.key "sources", .key "org.osbuild.files", .key "urls"] (.obj []) =
        .obj (dset ML "sources" (.obj (dset S2C "org.osbuild.files"
          (.obj (ddel flC "urls"))))) := by
      rw [minimalFormSpec.step, getPath_obj_key, hgs]
      dsimp only [Option.bind]
      rw [getPath_obj_key, hgf]
      dsimp only [Option.bind]
      rw [getPath_obj_key, hgu]
      dsimp only [Option.bind]
      rw [getPath_nil]
      dsimp only
      rw [if_pos (pyEq_of_canon rfl), removeAtPath, hgs]
      dsimp only
      rw [removeAtPath, hgf]
      rfl
    have hgs2 : dget (dset ML "sources" (.obj (dset S2C "org.osbuild.files"
        (.obj (ddel flC "urls"))))) "sources" = some (.obj (dset S2C
        "org.osbuild.files" (.obj (ddel flC "urls")))) :=
      dget_dset_self ML "sources" _
    have hst2 := stripStep_two "sources" "org.osbuild.files" (.obj [])
      hgs2 (dset_ne_nil S2C "org.osbuild.files" _)
    by_cases hf : ddel flC "urls" = []
    · have hflC : flC = [("urls", Json.obj [])] := eq_single_of_ddel_nil hgu hf
      have hstep2 : minimalFormSpec.step (.obj (dset ML "sources"
          (.obj (dset S2C "org.osbuild.files" (.obj (ddel flC "urls"))))))
          [.key "sources", .key "org.osbuild.files"] (.obj []) =
          .obj (dset ML "sources" (.obj (ddel S2C "org.osbuild.files"))) := by
        rw [minimalFormSpec.step, getPath_obj_key, dget_dset_self]
        dsimp only [Option.bind]
        rw [getPath_obj_key, dget_dset_self]
        dsimp only [Option.bind]
        rw [getPath_nil]
        dsimp only
        rw [hf, if_pos (pyEq_of_canon rfl), removeAtPath, dget_dset_self]
        dsimp only
        rw [removeAtPath, ddel_dset, dset_dset]
      have hgs3 : dget (dset ML "sources" (.obj (ddel S2C "org.osbuild.files")))
          "sources" = some (.obj (ddel S2C "org.osbuild.files")) :=
        dget_dset_self ML "sources" _
      by_cases hs : ddel S2C "org.osbuild.files" = []
      · have hS2C : S2C = [("org.osbuild.files", Json.obj flC)] :=
          eq_single_of_ddel_nil hgf hs
        have hstep3 : minimalFormSpec.step (.obj (dset ML "sources"
            (.obj (ddel S2C "org.osbuild.files")))) [.key "sources"]
            (.obj []) = .obj (ddel ML "sources") := by
          rw [minimalFormSpec.step, getPath_obj_key, dget_dset_self]
          dsimp only [Option.bind]
          rw [getPath_nil]
          dsimp only
          rw [hs, if_pos (pyEq_of_canon rfl), removeAtPath, ddel_dset]
        have hnone : dget (ddel ML "sources") "sources" = none :=
          dget_ddel_self hndM
        refine ⟨ddel ML "sources", [], [], .obj [],
          .obj (dset ML "sources" (.obj (dset S2C "org.osbuild.files"
            (.obj (ddel flC "urls"))))),
          .obj (dset ML "sources" (.obj (ddel S2C "org.osbuild.files"))),
          ?_, ?_, ?_, ?_,
          dget_ddel_ne (by decide), nokeydup_ddel "sources" hndM,
          ?_, rfl, rfl, ?_, ?_, rfl⟩
        · rw [hst1, hstep1]
        · rw [hst2, hstep2]
        · rw [stripStep_one, hstep3]
        · rw [hstep1, hstep2, hstep3]
        · intro X hX
          rw [hnone] at hX
          rw [enterOne_of_none hX, dget_append_right hX]
          rfl
        · rw [hS2C, hflC]
          rfl
        · rw [hflC]
          rfl
      · have hpe3 : pyEq (.obj (ddel S2C "org.osbuild.files"))
            (.obj []) = false :=
          pyEq_empty_obj_false (by intro hh; injection hh with hh; exact hs hh)
        have hstep3 : minimalFormSpec.step (.obj (dset ML "sources"
            (.obj (ddel S2C "org.osbuild.files")))) [.key "sources"]
            (.obj []) = .obj (dset ML "sources"
            (.obj (ddel S2C "org.osbuild.files"))) := by
          rw [minimalFormSpec.step, getPath_obj_key, dget_dset_self]
          dsimp only [Option.bind]
          rw [getPath_nil]
          dsimp only
          rw [hpe3, if_neg Bool.false_ne_true]
        have hSDnone : dget (ddel S2C "org.osbuild.files")
            "org.osbuild.files" = none := dget_ddel_self hndS
        refine ⟨dset ML "sources" (.obj (ddel S2C "org.osbuild.files")),
          ddel S2C "org.osbuild.files", [], .obj [],
          .obj (dset ML "sources" (.obj (dset S2C "org.osbuild.files"
            (.obj (ddel flC "urls"))))),
          .obj (dset ML "sources" (.obj (ddel S2C "org.osbuild.files"))),
          ?_, ?_, ?_, ?_,
          dget_dset_ne (by decide), ?_, ?_, ?_, rfl, ?_, ?_, rfl⟩
        · rw [hst1, hstep1]
        · rw [hst2, hstep2]
        · rw [stripStep_one, hstep3]
        · rw [hstep1, hstep2, hstep3]
        · rw [keys_dset_of_some hgs]
          exact hndM
        · intro X hX
          rw [dget_dset_self] at hX
          rw [enterOne_of_some hX (.obj [])]
          exact hX
        · rw [enterOne_of_none hSDnone, dget_append_right hSDnone]
          rfl
        · have hV : Json.obj (enterOne ([] : List (String × Json)) "urls"
              (.obj [])) = .obj flC := by
            rw [hflC]
            rfl
          rw [enterOne_of_none hSDnone, dset_append_last hSDnone, hV]
          exact canon_strip_reinsert hndS hgf
        · rw [hflC]
          rfl
    · have hfnone : dget (ddel flC "urls") "urls" = none := dget_ddel_self hndF
      have hpe2 : pyEq (.obj (ddel flC "urls")) (.obj []) = false :=
        pyEq_empty_obj_false (by intro hh; injection hh with hh; exact hf hh)
      have hstep2 : minimalFormSpec.step (.obj (dset ML "sources"
          (.obj (dset S2C "org.osbuild.files" (.obj (ddel flC "urls"))))))
          [.key "sources", .key "org.osbuild.files"] (.obj []) =
          .obj (dset ML "sources" (.obj (dset S2C "org.osbuild.files"
            (.obj (ddel flC "urls"))))) := by
        rw [minimalFormSpec.step, getPath_obj_key, dget_dset_self]
        dsimp only [Option.bind]
        rw [getPath_obj_key, dget_dset_self]
        dsimp only [Option.bind]
        rw [getPath_nil]
        dsimp only
        rw [hpe2, if_neg Bool.false_ne_true]
      have hpe3 : pyEq (.obj (dset S2C "org.osbuild.files"
          (.obj (ddel flC "urls")))) (.obj []) = false :=
        pyEq_empty_obj_false (by
          intro hh
          injection hh with hh
          exact dset_ne_nil S2C "org.osbuild.files" _ hh)
      have hstep3 : minimalFormSpec.step (.obj (dset ML "sources"
          (.obj (dset S2C "org.osbuild.files" (.obj (ddel flC "urls"))))))
          [.key "sources"] (.obj []) =
          .obj (dset ML "sources" (.obj (dset S2C "org.osbuild.files"
            (.obj (ddel flC "urls"))))) := by
        rw [minimalFormSpec.step, getPath_obj_key, dget_dset_self]
        dsimp only [Option.bind]
        rw [getPath_nil]
        dsimp only
        rw [hpe3, if_neg Bool.false_ne_true]
      have hcFv : canon (.obj (enterOne (ddel flC "urls") "urls" (.obj []))) =
          canon (.obj flC) := by
        rw [enterOne_of_none hfnone]
        exact canon_strip_reinsert hndF hgu
      refine ⟨dset ML "sources" (.obj (dset S2C "org.osbuild.files"
          (.obj (ddel flC "urls")))), dset S2C "org.osbuild.files"
          (.obj (ddel flC "urls")), ddel flC "urls", .obj [],
          .obj (dset ML "sources" (.obj (dset S2C "org.osbuild.files"
            (.obj (ddel flC "urls"))))),
          .obj (dset ML "sources" (.obj (dset S2C "org.osbuild.files"
            (.obj (ddel flC "urls"))))),
          ?_, ?_, ?_, ?_, dget_dset_ne (by decide), ?_, ?_, ?_, ?_, ?_,
          hcFv, rfl⟩
      · rw [hst1, hstep1]
      · rw [hst2, hstep2]
      · rw [stripStep_one, hstep3]
      · rw [hstep1, hstep2, hstep3]
      · rw [keys_dset_of_some hgs]
        exact hndM
      · intro X hX
        rw [dget_dset_self] at hX
        rw [enterOne_of_some hX (.obj [])]
        exact hX
      · rw [enterOne_of_some (dget_dset_self S2C "org.osbuild.files" _)
          (.obj [])]
        exact dget_dset_self S2C "org.osbuild.files" _
      · rw [enterOne_of_none hfnone, dget_append_right hfnone]
        rfl
      · rw [enterOne_of_some (dget_dset_self S2C "org.osbuild.files" _)
          (.obj []), dset_dset]
        exact canon_dset_congr hgf hcFv
  · have hpe1 : pyEq uv (.obj []) = false := pyEq_empty_obj_false hu
    have hstep1 : minimalFormSpec.step (.obj ML)
        [.key "sources", .key "org.osbuild.files", .key "urls"] (.obj []) =
        .obj ML := by
      rw [minimalFormSpec.step, getPath_obj_key, hgs]
      dsimp only [Option.bind]
      rw [getPath_obj_key, hgf]
      dsimp only [Option.bind]
      rw [getPath_obj_key, hgu]
      dsimp only [Option.bind]
      rw [getPath_nil]
      dsimp only
      rw [hpe1, if_neg Bool.false_ne_true]
    have hpe2 : pyEq (.obj flC) (.obj []) = false :=
      pyEq_empty_obj_false (by intro hh; injection hh with hh; exact hFne hh)
    have hstep2 : minimalFormSpec.step (.obj ML)
        [.key "sources", .key "org.osbuild.files"] (.obj []) = .obj ML := by
      rw [minimalFormSpec.step, getPath_obj_key, hgs]
      dsimp only [Option.bind]
      rw [getPath_obj_key, hgf]
      dsimp only [Option.bind]
      rw [getPath_nil]
      dsimp only
      rw [hpe2, if_neg Bool.false_ne_true]
    have hpe3 : pyEq (.obj S2C) (.obj []) = false :=
      pyEq_empty_obj_false (by intro hh; injection hh with hh; exact hSne hh)
    have hstep3 : minimalFormSpec.step (.obj ML) [.key "sources"] (.obj []) =
        .obj ML := by
      rw [minimalFormSpec.step, getPath_obj_key, hgs]
      dsimp only [Option.bind]
      rw [getPath_nil]
      dsimp only
      rw [hpe3, if_neg Bool.false_ne_true]
    have hst2 := stripStep_two "sources" "org.osbuild.files" (.obj []) hgs hSne
    refine ⟨ML, S2C, flC, uv, .obj ML, .obj ML, ?_, ?_, ?_, ?_, rfl, hndM,
      ?_, ?_, ?_, ?_, ?_, rfl⟩
    · rw [hst1, hstep1]
    · rw [hst2, hstep2]
    · rw [stripStep_one, hstep3]
    · rw [hstep1, hstep2, hstep3]
    · intro X hX
      rw [hgs] at hX
      rw [enterOne_of_some hX (.obj [])]
      exact hX
    · rw [enterOne_of_some hgf (.obj [])]
      exact hgf
    · rw [enterOne_of_some hgu (.obj [])]
      exact hgu
    · rw [enterOne_of_some hgf (.obj []), enterOne_of_some hgu (.obj []),
        dset_self hgf]
    · rw [enterOne_of_some hgu (.obj [])]

/-- **C5.** For every well-formed (`json.load`-produced, hence
duplicate-key-free) document that loads successfully: serializing the
loaded manifest without any pass mutation strips exactly the spec's
minimal form (each linked substructure still Python-`==` to its declared
default removed, applied deepest-to-shallowest, so an emptied child does
not block removal of its emptied parent), the serialized text is the dump
of that minimal form, and re-loading the minimal form succeeds with all
five cached links Python-`==` to the original model's links. -/
theorem c5_minimal_form_roundtrip {d m : Json} (hnd : jnodup d = true)
    (h : refresh d = .ok m) :
    strip m = .ok (minimalFormSpec m) ∧
    to_stream m = .ok (dumpRaw 0 (canon (minimalFormSpec m)) ++ "\n") ∧
    ∃ m2, refresh (minimalFormSpec m) = .ok m2 ∧
      pyEq (linksOf m2).pipeline (linksOf m).pipeline = true ∧
      pyEq (linksOf m2).stages (linksOf m).stages = true ∧
      pyEq (linksOf m2).sources (linksOf m).sources = true ∧
      pyEq (linksOf m2).files (linksOf m).files = true ∧
      pyEq (linksOf m2).urls (linksOf m).urls = true := by
  obtain ⟨dl, pl0, sl0, fl0, lv, hd, hg2, hg4, hg6, hm, hlv⟩ := refresh_elim h
  subst hd
  set plC := enterOne pl0 "stages" (.arr []) with hplCdef
  set L1 := enterOne dl "pipeline" (.obj []) with hL1def
  set L2 := enterOne (dset L1 "pipeline" (.obj plC)) "sources" (.obj [])
    with hL2def
  set flC := enterOne fl0 "urls" (.obj []) with hflCdef
  set S1C := enterOne sl0 "org.osbuild.files" (.obj []) with hS1Cdef
  set S2C := dset S1C "org.osbuild.files" (.obj flC) with hS2Cdef
  set ML := dset L2 "sources" (.obj S2C) with hMLdef
  subst hm
  have hgs : dget ML "sources" = some (.obj S2C) := by
    rw [hMLdef]
    exact dget_dset_self _ _ _
  have hgf : dget S2C "org.osbuild.files" = some (.obj flC) := by
    rw [hS2Cdef]
    exact dget_dset_self _ _ _
  have hgp : dget ML "pipeline" = some (.obj plC) := by
    rw [hMLdef, dget_dset_ne (by decide), hL2def, dget_enterOne_ne (by decide),
      dget_dset_self]
  obtain ⟨uv, hgu⟩ : ∃ uv, dget flC "urls" = some uv := by
    cases hx : dget fl0 "urls" with
    | some w => exact ⟨w, by rw [hflCdef]; exact dget_enterOne_of_some hx⟩
    | none => exact ⟨.obj [], by rw [hflCdef]; exact dget_enterOne_of_none hx⟩
  obtain ⟨sv, hgsv⟩ : ∃ sv, dget plC "stages" = some sv := by
    cases hx : dget pl0 "stages" with
    | some w => exact ⟨w, by rw [hplCdef]; exact dget_enterOne_of_some hx⟩
    | none => exact ⟨.arr [], by rw [hplCdef]; exact dget_enterOne_of_none hx⟩
  have hndDl := jnodup_keys hnd
  have hjpl0 : jnodup (.obj pl0) = true := by
    cases hx : dget dl "pipeline" with
    | some w =>
      have h2' := hg2
      rw [hL1def, dget_enterOne_of_some hx] at h2'
      injection h2' with h2'
      rw [← h2']
      exact jnodup_dget hnd hx
    | none =>
      have h2' := hg2
      rw [hL1def, dget_enterOne_of_none hx] at h2'
      injection h2' with h2'
      rw [← h2']
      rfl
  have hxs : dget (dset L1 "pipeline" (.obj plC)) "sources" =
      dget dl "sources" := by
    rw [dget_dset_ne (by decide), hL1def, dget_enterOne_ne (by decide)]
  have hjsl0 : jnodup (.obj sl0) = true := by
    cases hx : dget dl "sources" with
    | some w =>
      have h4' := hg4
      rw [hL2def, dget_enterOne_of_some (hxs.trans hx)] at h4'
      injection h4' with h4'
      rw [← h4']
      exact jnodup_dget hnd hx
    | none =>
      have h4' := hg4
      rw [hL2def, dget_enterOne_of_none (hxs.trans hx)] at h4'
      injection h4' with h4'
      rw [← h4']
      rfl
  have hjfl0 : jnodup (.obj fl0) = true := by
    cases hx : dget sl0 "org.osbuild.files" with
    | some w =>
      have h6' := hg6
      rw [hS1Cdef, dget_enterOne_of_some hx] at h6'
      injection h6' with h6'
      rw [← h6']
      exact jnodup_dget hjsl0 hx
    | none =>
      have h6' := hg6
      rw [hS1Cdef, dget_enterOne_of_none hx] at h6'
      injection h6' with h6'
      rw [← h6']
      rfl
  have hndP : nokeydup (plC.map Prod.fst) = true := by
    rw [hplCdef]
    exact nokeydup_enterOne _ _ (jnodup_keys hjpl0)
  have hndF : nokeydup (flC.map Prod.fst) = true := by
    rw [hflCdef]
    exact nokeydup_enterOne _ _ (jnodup_keys hjfl0)
  have hndS : nokeydup (S2C.map Prod.fst) = true := by
    rw [hS2Cdef, keys_dset_of_some hg6, hS1Cdef]
    exact nokeydup_enterOne _ _ (jnodup_keys hjsl0)
  have hndMid : nokeydup ((dset L1 "pipeline" (.obj plC)).map Prod.fst) = true := by
    rw [keys_dset_of_some hg2, hL1def]
    exact nokeydup_enterOne _ _ hndDl
  have hndM : nokeydup (ML.map Prod.fst) = true := by
    rw [hMLdef, keys_dset_of_some hg4, hL2def]
    exact nokeydup_enterOne _ _ hndMid
  obtain ⟨rs, S1', F1', uv', m1, m2', hs1, hs2, hs3, hspecS, hpipEq, hndRs,
    hSfun, hF', huv', hcS, hcF, hcU⟩ := c5_src hgs hgf hgu hndM hndS hndF
  have hgpRs : dget rs "pipeline" = some (.obj plC) := by
    rw [hpipEq]
    exact hgp
  obtain ⟨rp, P1, sv', m4, hs4, hs5, hspecP, hsrcEq, hP1, hsv', hbuild,
    hP1ne, hcP, hcsv⟩ := c5_pipe hgpRs hgsv hndP hndRs
  have hmin : minimalFormSpec (.obj ML) = .obj rp := by
    rw [minimalFormSpec, urlsPath, filesPath, sourcesPath, stagesPath,
      pipelinePath, hspecS, hspecP]
  have hstrip : strip (.obj ML) = .ok (.obj rp) := by
    rw [strip, hs1]
    dsimp only
    rw [hs2]
    dsimp only
    rw [hs3]
    dsimp only
    rw [hs4]
    dsimp only
    exact hs5
  set R2T := enterOne (dset (enterOne rp "pipeline" (.obj [])) "pipeline"
    (.obj (enterOne P1 "stages" (.arr [])))) "sources" (.obj []) with hR2T
  set S2T := dset (enterOne S1' "org.osbuild.files" (.obj []))
    "org.osbuild.files" (.obj (enterOne F1' "urls" (.obj []))) with hS2T
  set R4T := dset R2T "sources" (.obj S2T) with hR4T
  have hpreS : dget (dset (enterOne rp "pipeline" (.obj [])) "pipeline"
      (.obj (enterOne P1 "stages" (.arr [])))) "sources" = dget rs "sources" := by
    rw [dget_dset_ne (by decide), dget_enterOne_ne (by decide), hsrcEq]
  have hSR2 : dget R2T "sources" = some (.obj S1') := by
    rw [hR2T]
    exact hSfun _ hpreS
  have hR4p : dget R4T "pipeline" =
      some (.obj (enterOne P1 "stages" (.arr []))) := by
    rw [hR4T, dget_dset_ne (by decide), hR2T, dget_enterOne_ne (by decide),
      dget_dset_self]
  have hR4ne : R4T ≠ [] := by
    rw [hR4T]
    exact dset_ne_nil _ _ _
  obtain ⟨lvR, hlvR⟩ : ∃ lvR, levelsFrom [] (.obj R4T) = .ok lvR := by
    rcases hbuild with hb | hb
    · cases hbb : dget plC "build" with
      | none => exact ⟨_, walk_ok_top hR4p hR4ne hP1ne (hb.trans hbb)⟩
      | some b =>
        obtain ⟨rest, hrest⟩ := walk_extract hlv hgp (ne_nil_of_dget hgsv) hbb
        exact ⟨_, walk_ok_build hR4p hR4ne hP1ne (hb.trans hbb) hrest⟩
    · exact ⟨_, walk_ok_top hR4p hR4ne hP1ne hb⟩
  have hlvR' : levelsFrom [] (.obj (dset R2T "sources" (.obj S2T))) =
      .ok lvR := by
    rw [← hR4T]
    exact hlvR
  have hrefresh : refresh (.obj rp) = .ok (.obj R4T) := by
    rw [hR4T]
    exact refresh_compute hR2T hS2T hP1 hSR2 hF' hlvR'
  have hR4s : dget R4T "sources" = some (.obj S2T) := by
    rw [hR4T]
    exact dget_dset_self _ _ _
  have hS2Tf : dget S2T "org.osbuild.files" =
      some (.obj (enterOne F1' "urls" (.obj []))) := by
    rw [hS2T]
    exact dget_dset_self _ _ _
  have mlP : (linksOf (.obj ML)).pipeline = .obj plC := by
    rw [linksOf]
    dsimp only
    rw [pipelinePath, getPath_obj_key, hgp]
    rfl
  have mlSt : (linksOf (.obj ML)).stages = sv := by
    rw [linksOf]
    dsimp only
    rw [stagesPath, getPath_obj_key, hgp]
    dsimp only [Option.bind]
    rw [getPath_obj_key, hgsv]
    dsimp only [Option.bind]
    rw [getPath_nil]
    rfl
  have mlS : (linksOf (.obj ML)).sources = .obj S2C := by
    rw [linksOf]
    dsimp only
    rw [sourcesPath, getPath_obj_key, hgs]
    rfl
  have mlF : (linksOf (.obj ML)).files = .obj flC := by
    rw [linksOf]
    dsimp only
    rw [filesPath, getPath_obj_key, hgs]
    dsimp only [Option.bind]
    rw [getPath_obj_key, hgf]
    rfl
  have mlU : (linksOf (.obj ML)).urls = uv := by
    rw [linksOf]
    dsimp only
    rw [urlsPath, getPath_obj_key, hgs]
    dsimp only [Option.bind]
    rw [getPath_obj_key, hgf]
    dsimp only [Option.bind]
    rw [getPath_obj_key, hgu]
    dsimp only [Option.bind]
    rw [getPath_nil]
    rfl
  have mpP : (linksOf (.obj R4T)).pipeline =
      .obj (enterOne P1 "stages" (.arr [])) := by
    rw [linksOf]
    dsimp only
    rw [pipelinePath, getPath_obj_key, hR4p]
    rfl
  have mpSt : (linksOf (.obj R4T)).stages = sv' := by
    rw [linksOf]
    dsimp only
    rw [stagesPath, getPath_obj_key, hR4p]
    dsimp only [Option.bind]
    rw [getPath_obj_key, hsv']
    dsimp only [Option.bind]
    rw [getPath_nil]
    rfl
  have mpS : (linksOf (.obj R4T)).sources = .obj S2T := by
    rw [linksOf]
    dsimp only
    rw [sourcesPath, getPath_obj_key, hR4s]
    rfl
  have mpF : (linksOf (.obj R4T)).files =
      .obj (enterOne F1' "urls" (.obj [])) := by
    rw [linksOf]
    dsimp only
    rw [filesPath, getPath_obj_key, hR4s]
    dsimp only [Option.bind]
    rw [getPath_obj_key, hS2Tf]
    rfl
  have mpU : (linksOf (.obj R4T)).urls = uv' := by
    rw [linksOf]
    dsimp only
    rw [urlsPath, getPath_obj_key, hR4s]
    dsimp only [Option.bind]
    rw [getPath_obj_key, hS2Tf]
    dsimp only [Option.bind]
    rw [getPath_obj_key, huv']
    dsimp only [Option.bind]
    rw [getPath_nil]
    rfl
  refine ⟨?_, ?_, .obj R4T, ?_, ?_, ?_, ?_, ?_, ?_⟩
  · rw [hmin]
    exact hstrip
  · rw [to_stream, hstrip]
    dsimp only
    rw [hmin]
  · rw [hmin]
    exact hrefresh
  · rw [mpP, mlP]
    exact pyEq_of_canon hcP
  · rw [mpSt, mlSt]
    exact pyEq_of_canon hcsv
  · rw [mpS, mlS]
    exact pyEq_of_canon hcS
  · rw [mpF, mlF]
    exact pyEq_of_canon hcF
  · rw [mpU, mlU]
    exact pyEq_of_canon hcU

/-- C5 witness: the hypotheses are satisfiable - the empty document is
well-formed and loads - and the roundtrip property holds for it. -/
theorem c5_witness :
    jnodup (Json.obj []) = true ∧
    refresh (Json.obj []) = .ok emptyLoaded ∧
    (strip emptyLoaded = .ok (minimalFormSpec emptyLoaded) ∧
     to_stream emptyLoaded =
       .ok (dumpRaw 0 (canon (minimalFormSpec emptyLoaded)) ++ "\n") ∧
     ∃ m2, refresh (minimalFormSpec emptyLoaded) = .ok m2 ∧
       pyEq (linksOf m2).pipeline (linksOf emptyLoaded).pipeline = true ∧
       pyEq (linksOf m2).stages (linksOf emptyLoaded).stages = true ∧
       pyEq (linksOf m2).sources (linksOf emptyLoaded).sources = true ∧
       pyEq (linksOf m2).files (linksOf emptyLoaded).files = true ∧
       pyEq (linksOf m2).urls (linksOf emptyLoaded).urls = true) :=
  ⟨by decide, by decide,
    @c5_minimal_form_roundtrip (Json.obj []) emptyLoaded (by decide) (by decide)⟩

end ManifestDb
